import Mathlib

/-!
Shallow embedding of the Battleship engine (`board_data.cpp`, `game_logic.cpp`,
`ai_logic.cpp`, `game_loop.cpp`) and proofs about its shot resolution, ship
placement, AI targeting and turn orchestration.

Conventions: the C++ grid `std::vector<std::vector<char>>` becomes
`List (List Char)` indexed `[row][col]`; C++ `int` becomes `Int`; shots are
`(x, y)` pairs where the grid access is `boardArray[y][x]`, exactly as in the
source. The C library `rand()` is modelled as a stream of naturals consumed
one value per call.
-/

namespace Battleship

/-- A 2-D character grid, row major, mirroring `std::vector<std::vector<char>>`. -/
abbrev Grid := List (List Char)

/-- Read `g[r][c]`. Matches the C++ access for indices the program has
bounds-checked; out-of-range reads give the harmless placeholder `' '`. -/
def gridGet (g : Grid) (r c : Int) : Char :=
  if 0 ≤ r ∧ 0 ≤ c then (g.getD r.toNat []).getD c.toNat ' ' else ' '

/-- Write `g[r][c] = ch`; a no-op outside the grid. -/
def gridSet (g : Grid) (r c : Int) (ch : Char) : Grid :=
  if 0 ≤ r ∧ 0 ≤ c then g.set r.toNat ((g.getD r.toNat []).set c.toNat ch) else g

/-- The grid really is an `n × n` vector of vectors. -/
def gridShape (g : Grid) (n : Int) : Prop :=
  g.length = n.toNat ∧ ∀ row ∈ g, row.length = n.toNat

/-- `(row, col)` lies inside an `n × n` board. -/
def inB (n : Int) (p : Int × Int) : Prop :=
  0 ≤ p.1 ∧ p.1 < n ∧ 0 ≤ p.2 ∧ p.2 < n

instance (n : Int) (p : Int × Int) : Decidable (inB n p) := by
  unfold inB; infer_instance

/-- `struct ActiveShip` from `board_data.hpp`. -/
structure ActiveShip where
  id : Int
  symbol : Char
  length : Int
  hitCount : Int
  isSunk : Bool
  startRow : Int
  startCol : Int
  orientation : Int
deriving DecidableEq, Repr

/-- The value-initialized `ActiveShip` produced by `std::map::operator[]` on a
missing key. -/
def defaultShip : ActiveShip :=
  ⟨0, Char.ofNat 0, 0, 0, false, 0, 0, 0⟩

/-- `class BoardData` from `board_data.hpp` (the UI-irrelevant `shipCellMap`
cache is omitted; no claim consults it). -/
structure BoardData where
  boardArray : Grid
  myShips : List ActiveShip
  shipStatus : List (Char × ActiveShip)
  boardSize : Int
  missCount : Int
  isHost : Bool
deriving DecidableEq, Repr

/-- `std::map<char, ActiveShip>` lookup with `operator[]` default. -/
def mapGet : List (Char × ActiveShip) → Char → ActiveShip
  | [], _ => defaultShip
  | (k, v) :: rest, c => if k = c then v else mapGet rest c

/-- `std::map<char, ActiveShip>` store through `operator[]`. -/
def mapSet : List (Char × ActiveShip) → Char → ActiveShip → List (Char × ActiveShip)
  | [], k, v => [(k, v)]
  | (k', v') :: rest, k, v => if k' = k then (k, v) :: rest else (k', v') :: mapSet rest k v

/-- The membership test `BoardData::receiveShot` performs to decide whether
`(x, y)` lies on a given ship (lines 86–99 of `board_data.cpp`). -/
def shipHitTest (s : ActiveShip) (x y : Int) : Bool :=
  if s.length = 1 then decide (x = s.startCol ∧ y = s.startRow)
  else if s.orientation = 1 then
    decide (x = s.startCol ∧ s.startRow ≤ y ∧ y < s.startRow + s.length)
  else
    decide (y = s.startRow ∧ x ≤ s.startCol ∧ s.startCol - s.length < x)

/-- The `i`-th cell `(row, col)` of a ship: vertical ships extend downward
from the origin, horizontal ships extend to the left. -/
def shipCell (s : ActiveShip) (i : Nat) : Int × Int :=
  if s.orientation = 1 then (s.startRow + i, s.startCol) else (s.startRow, s.startCol - i)

/-- All cells of a ship, in the order the C++ loops visit them. -/
def shipCells (s : ActiveShip) : List (Int × Int) :=
  (List.range s.length.toNat).map (shipCell s)

/-- Write `ch` on every cell of `L` in order (the ship-painting loops of
`addShip` and `placeShip`). -/
def paintCells (g : Grid) (L : List (Int × Int)) (ch : Char) : Grid :=
  L.foldl (fun g2 p => gridSet g2 p.1 p.2 ch) g

/-- The sunk-marking loop of `receiveShot` (lines 112–125): write `'s'` on
every ship cell that is in bounds. -/
def markSunkCells (g : Grid) (n : Int) (s : ActiveShip) : Grid :=
  (shipCells s).foldl
    (fun g2 p => if inB n p then gridSet g2 p.1 p.2 's' else g2) g

/-- The ship-search loop of `receiveShot`: find the first ship that is not
sunk, has the target symbol and covers `(x, y)`; return the unchanged ships
before it, the ship, and the ships after it. -/
def scanShips (sym : Char) (x y : Int) :
    List ActiveShip → Option (List ActiveShip × ActiveShip × List ActiveShip)
  | [] => none
  | s :: rest =>
    if ¬s.isSunk ∧ s.symbol = sym ∧ shipHitTest s x y = true then some ([], s, rest)
    else (scanShips sym x y rest).map (fun t => (s :: t.1, t.2.1, t.2.2))

/-- `BoardData::receiveShot` (board_data.cpp lines 57–140).
Returns the outcome (`0` miss, `1` hit, `2` sunk) and the updated board. -/
def receiveShot (b : BoardData) (x y : Int) : Int × BoardData :=
  if ¬(0 ≤ x ∧ x < b.boardSize ∧ 0 ≤ y ∧ y < b.boardSize) then (0, b)
  else
    let cell := gridGet b.boardArray y x
    if cell = 'x' ∨ cell = 'o' ∨ cell = 's' then (0, b)
    else if cell = 'w' then
      (0, { b with boardArray := gridSet b.boardArray y x 'o', missCount := b.missCount + 1 })
    else if 'A' ≤ cell ∧ cell ≤ 'Z' then
      match scanShips cell x y b.myShips with
      | some (pre, s, post) =>
        let s1 : ActiveShip := { s with hitCount := s.hitCount + 1 }
        if s1.length ≤ s1.hitCount then
          let s2 : ActiveShip := { s1 with isSunk := true }
          (2, { b with
                myShips := pre ++ s2 :: post,
                shipStatus := mapSet b.shipStatus s.symbol
                  { mapGet b.shipStatus s.symbol with isSunk := true, hitCount := s1.hitCount },
                boardArray := markSunkCells b.boardArray b.boardSize s2 })
        else
          (1, { b with
                myShips := pre ++ s1 :: post,
                shipStatus := mapSet b.shipStatus s.symbol
                  { mapGet b.shipStatus s.symbol with hitCount := s1.hitCount },
                boardArray := gridSet b.boardArray y x 'x' })
      | none => (1, { b with boardArray := gridSet b.boardArray y x 'x' })
    else (1, { b with boardArray := gridSet b.boardArray y x 'x' })

/-- `BoardData::initialize(size)`: an all-water board with cleared fleet data. -/
def initBoard (size : Int) : BoardData :=
  { boardArray := List.replicate size.toNat (List.replicate size.toNat 'w'),
    myShips := [], shipStatus := [], boardSize := size, missCount := 0, isHost := true }

/-- `BoardData::addShip` (board_data.cpp lines 258–286): register the ship and
paint its symbol on the grid. `orientation = 1` is vertical, anything else
horizontal; `startPos` is the linear index `row * boardSize + col`. -/
def addShip (b : BoardData) (orientation startPos length : Int) (symbol : Char) : BoardData :=
  let row := startPos / b.boardSize
  let col := startPos % b.boardSize
  let newShip : ActiveShip :=
    { id := (b.myShips.length : Int), symbol := symbol, length := length, hitCount := 0,
      isSunk := false, startRow := row, startCol := col, orientation := orientation }
  { b with
    myShips := b.myShips ++ [newShip],
    shipStatus := mapSet b.shipStatus symbol newShip,
    boardArray := paintCells b.boardArray (shipCells newShip) symbol }

/-- `BoardData::getShipOccupiedCells` (lines 207–240): cells of the first ship
covering `(x, y)`, as `(x, y)` pairs. Unlike `receiveShot`, the covering test
has no length-1 special case and ignores `isSunk`. -/
def getShipOccupiedCells (b : BoardData) (x y : Int) : List (Int × Int) :=
  match b.myShips.find? (fun s =>
      if s.orientation = 1 then
        decide (x = s.startCol ∧ s.startRow ≤ y ∧ y < s.startRow + s.length)
      else
        decide (y = s.startRow ∧ x ≤ s.startCol ∧ s.startCol - s.length < x)) with
  | some s => (shipCells s).map (fun p => (p.2, p.1))
  | none => []

/-- The body of `GameLogic::checkStartingPeg` (game_logic.cpp lines 153–176):
walk the `piece_length` cells, returning `2` on the first out-of-bounds cell,
`3` on the first non-water cell, else `1`. `j` is the loop counter, `fuel`
the number of cells still to examine. -/
def checkPegLoop (b : BoardData) (vert : Bool) (row col : Int) : Nat → Int → Int
  | 0, _ => 1
  | fuel + 1, j =>
    if vert then
      if b.boardSize ≤ row + j then 2
      else if gridGet b.boardArray (row + j) col ≠ 'w' then 3
      else checkPegLoop b vert row col fuel (j + 1)
    else
      if col - j < 0 then 2
      else if gridGet b.boardArray row (col - j) ≠ 'w' then 3
      else checkPegLoop b vert row col fuel (j + 1)

/-- `GameLogic::checkStartingPeg`: `1` = valid, `2` = out of bounds,
`3` = collision. `orientation = 1` is vertical (down), otherwise horizontal
(extending left). -/
def checkStartingPeg (b : BoardData) (orientation startPeg pieceLength : Int) : Int :=
  checkPegLoop b (orientation = 1) (startPeg / b.boardSize) (startPeg % b.boardSize)
    pieceLength.toNat 0

/-- The cells `(row, col)` a manual placement request would occupy
(`GameLogic::placeShip` / `isValidShipPlacement`): `orientation = 0` extends
left from `(gridX, gridY)`, otherwise up. -/
def placeCells (gridX gridY orientation length : Int) : List (Int × Int) :=
  (List.range length.toNat).map
    (fun i : Nat =>
      if orientation = 0 then (gridY, gridX - (i : Int)) else (gridY - (i : Int), gridX))

/-- Read `g[r][c]` as the C++ `std::vector` does: `none` when the access is
out of the vectors' real range (undefined behaviour in the source). -/
def gridGetChecked (g : Grid) (r c : Int) : Option Char :=
  if 0 ≤ r ∧ 0 ≤ c then g[r.toNat]?.bind (fun row => row[c.toNat]?) else none

/-- The loop of `GameLogic::isValidShipPlacement` (lines 210–229), horizontal
case: in-bounds test on the column, then a raw grid read. `none` marks an
execution that reaches an out-of-range vector access. -/
def validLoopH (b : BoardData) (gridX gridY : Int) : Nat → Int → Option Bool
  | 0, _ => some true
  | fuel + 1, i =>
    let checkX := gridX - i
    if checkX < 0 ∨ b.boardSize ≤ checkX then some false
    else match gridGetChecked b.boardArray gridY checkX with
      | none => none
      | some ch => if ch ≠ 'w' then some false else validLoopH b gridX gridY fuel (i + 1)

/-- The loop of `GameLogic::isValidShipPlacement`, vertical case. -/
def validLoopV (b : BoardData) (gridX gridY : Int) : Nat → Int → Option Bool
  | 0, _ => some true
  | fuel + 1, i =>
    let checkY := gridY - i
    if checkY < 0 ∨ b.boardSize ≤ checkY then some false
    else match gridGetChecked b.boardArray checkY gridX with
      | none => none
      | some ch => if ch ≠ 'w' then some false else validLoopV b gridX gridY fuel (i + 1)

/-- `GameLogic::isValidShipPlacement` (game_logic.cpp lines 210–229). -/
def isValidShipPlacement (b : BoardData) (gridX gridY orientation length : Int) : Option Bool :=
  if orientation = 0 then validLoopH b gridX gridY length.toNat 0
  else validLoopV b gridX gridY length.toNat 0

/-- `GameLogic::placeShip` (game_logic.cpp lines 185–202): validate, then
paint the symbol; the ship registry is not touched. `none` again marks an
execution whose validation hit undefined behaviour. -/
def placeShipOp (b : BoardData) (gridX gridY orientation length : Int) (symbol : Char) :
    Option (Bool × BoardData) :=
  match isValidShipPlacement b gridX gridY orientation length with
  | none => none
  | some false => some (false, b)
  | some true =>
    let g := paintCells b.boardArray (placeCells gridX gridY orientation length) symbol
    some (true, { b with boardArray := g })

/-! ### AI targeting (`ai_logic.cpp`) -/

/-- `enum AIDifficulty`. -/
inductive AIDifficulty where
  | easy
  | smart
deriving DecidableEq, Repr

/-- The mutable state of `AILogic` that targeting reads and writes
(the AI's own board is carried separately by the turn loop). `rng` models the
C `rand()` stream: each call consumes the head. Coordinates are `(x, y)`. -/
structure AIState where
  difficulty : AIDifficulty
  opponentBoard : Grid
  lastHit : Int × Int
  hunting : Bool
  availableShots : List (Int × Int)
  targetQueue : List (Int × Int)
  parityShots : List (Int × Int)
  boardSize : Int
  rng : List Nat
deriving DecidableEq, Repr

/-- `AILogic::addSmartNeighbors` (ai_logic.cpp lines 92–111): the four
orthogonal neighbours, in source order, that are in bounds and unmarked on
the AI's view of the opponent board. -/
def addSmartNeighbors (ob : Grid) (x y size : Int) : List (Int × Int) :=
  [(x, y - 1), (x, y + 1), (x - 1, y), (x + 1, y)].filter
    (fun c => decide (0 ≤ c.1 ∧ c.1 < size ∧ 0 ≤ c.2 ∧ c.2 < size) &&
      (let ch := gridGet ob c.2 c.1
       decide (ch = '?' ∨ ch = ' ')))

/-- The priority-1 loop of `AILogic::pickAttackCoordinates` (lines 134–161):
pop queue entries until one is still in `availableShots`; return it together
with the remaining queue and both shrunken pools. -/
def drainQueue (avail parity : List (Int × Int)) :
    List (Int × Int) →
    Option ((Int × Int) × List (Int × Int) × List (Int × Int) × List (Int × Int))
  | [] => none
  | c :: qs =>
    if c ∈ avail then some (c, qs, avail.erase c, parity.erase c)
    else drainQueue avail parity qs

/-- `AILogic::pickAttackCoordinates` (ai_logic.cpp lines 115–184). Returns
the chosen coordinates (or `(-1, -1)` when exhausted) and the new state. -/
def pickAttackCoordinates (st : AIState) : (Int × Int) × AIState :=
  if st.availableShots.isEmpty then ((-1, -1), st)
  else if st.difficulty = .easy then
    let idx := st.rng.headD 0 % st.availableShots.length
    (st.availableShots.getD idx (-1, -1),
     { st with availableShots := st.availableShots.eraseIdx idx, rng := st.rng.tail })
  else
    match drainQueue st.availableShots st.parityShots st.targetQueue with
    | some (c, qs, avail', parity') =>
      (c, { st with targetQueue := qs, availableShots := avail', parityShots := parity' })
    | none =>
      if st.parityShots ≠ [] then
        let c := st.parityShots.getLastD (-1, -1)
        (c, { st with targetQueue := [], parityShots := st.parityShots.dropLast, availableShots := st.availableShots.erase c })
      else
        let idx := st.rng.headD 0 % st.availableShots.length
        (st.availableShots.getD idx (-1, -1),
         { st with targetQueue := [], availableShots := st.availableShots.eraseIdx idx, rng := st.rng.tail })

/-- `AILogic::recordShotResult` (ai_logic.cpp lines 190–218). -/
def recordShotResult (st : AIState) (x y : Int) (isHit isSunk : Bool) : AIState :=
  if 0 ≤ x ∧ x < st.boardSize ∧ 0 ≤ y ∧ y < st.boardSize then
    let ob := gridSet st.opponentBoard y x (if isHit then 'X' else 'O')
    let st1 := { st with opponentBoard := ob }
    let st2 :=
      if st1.difficulty = .smart then
        let st1a :=
          if isHit ∧ ¬isSunk then
            { st1 with targetQueue := st1.targetQueue ++ addSmartNeighbors ob x y st1.boardSize }
          else st1
        if isSunk then { st1a with hunting := false, lastHit := (-1, -1) } else st1a
      else st1
    if isHit then { st2 with lastHit := (x, y), hunting := true } else st2
  else st

/-! ### Turn engine (`game_loop.cpp`, `GameLoop::runGameLoop`) -/

/-- The state the player-turn firing loop threads through one salvo: the
defending board, the attacker's fog view of it, and the defender's
remaining-ships counter. -/
structure SalvoState where
  defender : BoardData
  fog : Grid
  remaining : Int
deriving DecidableEq, Repr

/-- One iteration of the firing loop (game_loop.cpp lines 255–399, AI path):
resolve the shot, update the fog view (`'m'`, `'h'`, or the whole sunk ship
as `'s'`), and decrement the remaining-ships counter on a sunk result. -/
def fireStep (st : SalvoState) (shot : Int × Int) : SalvoState × Int :=
  let r := receiveShot st.defender shot.1 shot.2
  if r.1 = 0 then
    ({ st with defender := r.2, fog := gridSet st.fog shot.2 shot.1 'm' }, 0)
  else if r.1 = 1 then
    ({ st with defender := r.2, fog := gridSet st.fog shot.2 shot.1 'h' }, 1)
  else
    let cells := getShipOccupiedCells r.2 shot.1 shot.2
    let fog' := cells.foldl (fun g c => gridSet g c.2 c.1 's') st.fog
    ({ defender := r.2, fog := fog', remaining := st.remaining - 1 }, 2)

/-- The player-turn firing loop over the selected shots, with the source's
early exit: after each shot, stop if the defender has no ships left
(game_loop.cpp lines 396–399). Returns the final state and the trace of
shots actually resolved, each with its outcome. -/
def fireSalvo (st : SalvoState) : List (Int × Int) → SalvoState × List ((Int × Int) × Int)
  | [] => (st, [])
  | shot :: rest =>
    let r := fireStep st shot
    if r.1.remaining ≤ 0 then (r.1, [(shot, r.2)])
    else
      let t := fireSalvo r.1 rest
      (t.1, (shot, r.2) :: t.2)

/-- Resolving a list of shots with no early exit, for stating what the early
exit discards. -/
def runAllShots (st : SalvoState) (shots : List (Int × Int)) : SalvoState :=
  shots.foldl (fun s c => (fireStep s c).1) st

/-- Result of one AI (enemy) turn. -/
structure TurnOut where
  fired : List (Int × Int)
  results : List Int
  ai : AIState
  defender : BoardData
  remaining : Int
deriving DecidableEq, Repr

/-- The enemy-turn loop in AI mode (game_loop.cpp lines 492–580): for each of
the allowed shots, ask the AI for coordinates, stop on the `(-1, -1)`
sentinel, resolve the shot on the player's board, record the outcome into the
AI state, and stop early once the player has no ships left. -/
def aiTurn : Nat → AIState → BoardData → Int → TurnOut
  | 0, ai, b, rem => ⟨[], [], ai, b, rem⟩
  | n + 1, ai, b, rem =>
    let p := pickAttackCoordinates ai
    if p.1.1 = -1 ∨ p.1.2 = -1 then ⟨[], [], p.2, b, rem⟩
    else
      let r := receiveShot b p.1.1 p.1.2
      let rem' := if r.1 = 2 then rem - 1 else rem
      let ai2 := recordShotResult p.2 p.1.1 p.1.2 (decide (r.1 ≠ 0)) (decide (r.1 = 2))
      if rem' ≤ 0 then ⟨[p.1], [r.1], ai2, r.2, rem'⟩
      else
        let t := aiTurn n ai2 r.2 rem'
        ⟨p.1 :: t.fired, r.1 :: t.results, t.ai, t.defender, t.remaining⟩

/-! ### Reachable boards

Boards producible by the program: an empty board, extended by validated
random placement (`generateBoardPlacement` calls `addShip` only after
`checkStartingPeg` returns `1` on a peg drawn from `[0, size²)` and an
orientation from `{1, 2}`), by manual placement (`placeShip`), and mutated by
shots. -/

inductive Reach : BoardData → Prop
  | init (size : Int) (hpos : 0 < size) : Reach (initBoard size)
  | add (b : BoardData) (orientation startPeg pieceLength : Int) (symbol : Char)
      (hr : Reach b)
      (hok : checkStartingPeg b orientation startPeg pieceLength = 1)
      (hpeg : 0 ≤ startPeg ∧ startPeg < b.boardSize * b.boardSize)
      (horient : orientation = 1 ∨ orientation = 2)
      (hlen : 1 ≤ pieceLength)
      (hsym : 'A' ≤ symbol ∧ symbol ≤ 'Z') :
      Reach (addShip b orientation startPeg pieceLength symbol)
  | place (b : BoardData) (gridX gridY orientation length : Int) (symbol : Char)
      (ok : Bool) (b' : BoardData) (hr : Reach b)
      (hv : placeShipOp b gridX gridY orientation length symbol = some (ok, b')) :
      Reach b'
  | shot (b : BoardData) (x y : Int) (hr : Reach b) : Reach (receiveShot b x y).2

/-! ### Derived definitions used throughout the development -/

/-- The predicate the ship-search loop of `receiveShot` tests. -/
def shotMatch (sym : Char) (x y : Int) (t : ActiveShip) : Prop :=
  ¬t.isSunk ∧ t.symbol = sym ∧ shipHitTest t x y = true

instance (sym : Char) (x y : Int) (t : ActiveShip) : Decidable (shotMatch sym x y t) := by
  unfold shotMatch; infer_instance

/-- The guarded write fold of the sunk-marking loop, over an arbitrary
cell list. -/
def markList (g : Grid) (n : Int) (L : List (Int × Int)) : Grid :=
  L.foldl (fun g2 p => if inB n p then gridSet g2 p.1 p.2 's' else g2) g

instance (g : Grid) (n : Int) : Decidable (gridShape g n) := by
  unfold gridShape; infer_instance

/-- An external interaction with the `AILogic` object: either a call to
`pickAttackCoordinates` or a call to `recordShotResult`. -/
inductive AIOp where
  | pickOp
  | recordOp (x y : Int) (hit sunk : Bool)

/-- Run a sequence of interactions, collecting every coordinate the picks
returned. -/
def runAIOps (st : AIState) : List AIOp → AIState × List (Int × Int)
  | [] => (st, [])
  | AIOp.pickOp :: ops =>
    let p := pickAttackCoordinates st
    let t := runAIOps p.2 ops
    (t.1, p.1 :: t.2)
  | AIOp.recordOp x y hit sunk :: ops => runAIOps (recordShotResult st x y hit sunk) ops

/-- The state invariant `AILogic` maintains on its shot pools: no duplicates,
the `(-1, -1)` sentinel is not a real pool entry, and for the Smart tier the
parity pool is a sub-pool of the untried pool. `initializeAvailableShots`
establishes it (distinct generated coordinates, shuffled). -/
def AIInv (st : AIState) : Prop :=
  st.availableShots.Nodup ∧ st.parityShots.Nodup ∧ (-1, -1) ∉ st.availableShots ∧
    (st.difficulty = .smart → ∀ c ∈ st.parityShots, c ∈ st.availableShots)

/-- A Smart AI state at the start of a turn: parity pool about to fire at
`(5, 5)`, empty follow-up queue, two remaining untried cells. -/
def cexAIState : AIState :=
  { difficulty := .smart, opponentBoard := List.replicate 10 (List.replicate 10 '?'),
    lastHit := (-1, -1), hunting := false,
    availableShots := [(0, 0), (5, 4)], targetQueue := [], parityShots := [(5, 5)],
    boardSize := 10, rng := [0] }

/-- Defender board with no ship at `(5, 5)`. -/
def cexBoardA : BoardData := initBoard 10

/-- Defender board with a vertical 2-ship covering `(5, 5)` and `(5, 6)`. -/
def cexBoardB : BoardData := addShip (initBoard 10) 1 55 2 'A'

/-- How many cells of ship `s` still show its symbol on grid `g`. -/
def symCount (g : Grid) (s : ActiveShip) : Int :=
  (((shipCells s).filter (fun p => gridGet g p.1 p.2 = s.symbol)).length : Int)

/-- The invariant every board built by the engine maintains: a well-shaped
grid, registered ships with in-bounds geometry and uppercase symbols, pairwise
disjoint cell sets, a hit counter that mirrors how many of the ship's cells no
longer show its symbol, ship cells only ever showing symbol / `'x'` / `'s'`,
and a sunk flag that agrees with the counter. -/
structure Inv (b : BoardData) : Prop where
  size_pos : 0 < b.boardSize
  shape : gridShape b.boardArray b.boardSize
  geom : ∀ s ∈ b.myShips, 1 ≤ s.length ∧ ∀ p ∈ shipCells s, inB b.boardSize p
  symOK : ∀ s ∈ b.myShips, 'A' ≤ s.symbol ∧ s.symbol ≤ 'Z'
  disj : b.myShips.Pairwise (fun s t => ∀ p ∈ shipCells s, p ∉ shipCells t)
  count : ∀ s ∈ b.myShips, s.hitCount = s.length - symCount b.boardArray s
  cellstate : ∀ s ∈ b.myShips, ∀ p ∈ shipCells s,
    gridGet b.boardArray p.1 p.2 = s.symbol ∨ gridGet b.boardArray p.1 p.2 = 'x' ∨
      gridGet b.boardArray p.1 p.2 = 's'
  sunkOK : ∀ s ∈ b.myShips, s.isSunk = decide (s.hitCount = s.length)


/-! ### Grid lemmas -/

theorem getD_eq_getElem (g : Grid) (i : Nat) (h : i < g.length) :
    g.getD i [] = g[i] := by
  simp [List.getD_eq_getElem?_getD, List.getElem?_eq_getElem h]

theorem gridGet_eq (g : Grid) (r c : Int) :
    gridGet g r c =
      if 0 ≤ r ∧ 0 ≤ c then (g[r.toNat]?.getD [])[c.toNat]?.getD ' ' else ' ' := by
  simp [gridGet, List.getD_eq_getElem?_getD]

theorem gridShape_set (g : Grid) (n r c : Int) (ch : Char) (h : gridShape g n) :
    gridShape (gridSet g r c ch) n := by
  unfold gridSet
  split
  · obtain ⟨h1, h2⟩ := h
    refine ⟨by simpa using h1, ?_⟩
    intro row hrow
    rcases Nat.lt_or_ge r.toNat g.length with hlt | hge
    · rcases List.mem_or_eq_of_mem_set hrow with h3 | h3
      · exact h2 row h3
      · subst h3
        simp only [List.length_set]
        rw [getD_eq_getElem g _ hlt]
        exact h2 _ (List.getElem_mem hlt)
    · rw [List.set_eq_of_length_le hge] at hrow
      exact h2 row hrow
  · exact h

theorem gridGet_gridSet_self (g : Grid) (n r c : Int) (ch : Char)
    (hsh : gridShape g n) (hr : 0 ≤ r) (hr2 : r < n) (hc : 0 ≤ c) (hc2 : c < n) :
    gridGet (gridSet g r c ch) r c = ch := by
  obtain ⟨h1, h2⟩ := hsh
  have hn : 0 ≤ n := le_of_lt (lt_of_le_of_lt hr hr2)
  have hrn : r.toNat < g.length := by omega
  have hrow : (g.getD r.toNat []).length = n.toNat := by
    rw [getD_eq_getElem g _ hrn]
    exact h2 _ (List.getElem_mem hrn)
  have hcn : c.toNat < (g.getD r.toNat []).length := by omega
  rw [gridGet_eq]
  simp only [hr, hc, and_self, if_true]
  unfold gridSet
  simp only [hr, hc, and_self, if_true]
  rw [List.getElem?_set_self (by simpa using hrn)]
  simp only [Option.getD_some]
  rw [List.getElem?_set_self hcn]
  rfl

theorem gridGet_gridSet_ne (g : Grid) (r c r' c' : Int) (ch : Char)
    (h : ¬(r' = r ∧ c' = c)) :
    gridGet (gridSet g r c ch) r' c' = gridGet g r' c' := by
  rw [gridGet_eq, gridGet_eq]
  unfold gridSet
  by_cases hrc : 0 ≤ r ∧ 0 ≤ c
  · by_cases hrc' : 0 ≤ r' ∧ 0 ≤ c'
    · simp only [hrc, hrc', and_self, if_true]
      by_cases hre : r'.toNat = r.toNat
      · have hr : r' = r := by omega
        have hcn : c.toNat ≠ c'.toNat := by omega
        rw [hre, List.getElem?_set_self']
        by_cases hlt : r.toNat < g.length
        · rw [List.getElem?_eq_getElem hlt]
          simp [getD_eq_getElem g _ hlt, List.getElem?_set_ne hcn,
            List.getElem?_eq_getElem hlt]
        · rw [List.getElem?_eq_none (Nat.le_of_not_lt hlt)]
          simp
      · rw [List.getElem?_set_ne (fun hh => hre hh.symm)]
    · simp only [hrc, and_self, if_true, hrc', if_false]
  · simp only [hrc, if_false]

theorem gridShape_initBoard (size : Int) : gridShape (initBoard size).boardArray size := by
  constructor
  · simp [initBoard]
  · intro row hrow
    simp only [initBoard] at hrow
    rw [List.eq_of_mem_replicate hrow]
    simp

/-- C2: a shot that is out of bounds, or lands on a cell already showing
miss (`'o'`), hit (`'x'`) or sunk (`'s'`), returns `0` (Miss) and leaves the
board — grid, ships, ship status, miss counter, everything — unchanged. -/
theorem receiveShot_resolved_is_noop (b : BoardData) (x y : Int)
    (h : ¬(0 ≤ x ∧ x < b.boardSize ∧ 0 ≤ y ∧ y < b.boardSize) ∨
      gridGet b.boardArray y x = 'o' ∨ gridGet b.boardArray y x = 'x' ∨
      gridGet b.boardArray y x = 's') :
    receiveShot b x y = (0, b) := by
  unfold receiveShot
  rcases h with h | h
  · simp [h]
  · by_cases hb : 0 ≤ x ∧ x < b.boardSize ∧ 0 ≤ y ∧ y < b.boardSize
    · simp only [hb, not_true_eq_false, if_false]
      have : gridGet b.boardArray y x = 'x' ∨ gridGet b.boardArray y x = 'o' ∨
          gridGet b.boardArray y x = 's' := by tauto
      simp [this]
    · simp [hb]

/-- Witness for C2: shooting `(-1, 0)` on a fresh 10×10 board, and shooting a
cell twice, both come back `0` with the board unchanged. -/
theorem receiveShot_resolved_is_noop_witness :
    receiveShot (initBoard 10) (-1) 0 = (0, initBoard 10) ∧
    receiveShot (receiveShot (initBoard 10) 3 4).2 3 4 =
      (0, (receiveShot (initBoard 10) 3 4).2) := by
  constructor
  · exact receiveShot_resolved_is_noop _ _ _ (Or.inl (by decide))
  · exact receiveShot_resolved_is_noop _ _ _ (Or.inr (by decide))

/-! ### Ship geometry lemmas -/

theorem shipCells_congr (s : ActiveShip) (hc : Int) (sk : Bool) :
    shipCells { s with hitCount := hc, isSunk := sk } = shipCells s := rfl

theorem shipCells_length (s : ActiveShip) : (shipCells s).length = s.length.toNat := by
  simp [shipCells]

theorem shipHitTest_iff_mem (s : ActiveShip) (x y : Int) :
    shipHitTest s x y = true ↔ (y, x) ∈ shipCells s := by
  unfold shipHitTest shipCells shipCell
  simp only [List.mem_map, List.mem_range]
  by_cases h1 : s.length = 1
  · rw [if_pos h1]
    simp only [decide_eq_true_eq]
    constructor
    · rintro ⟨hx, hy⟩
      refine ⟨0, by omega, ?_⟩
      by_cases h2 : s.orientation = 1
      · rw [if_pos h2, Prod.mk.injEq]
        exact ⟨by omega, hx.symm⟩
      · rw [if_neg h2, Prod.mk.injEq]
        exact ⟨hy.symm, by omega⟩
    · rintro ⟨i, hi, he⟩
      have hi0 : i = 0 := by omega
      subst hi0
      by_cases h2 : s.orientation = 1
      · rw [if_pos h2, Prod.mk.injEq] at he
        exact ⟨by omega, by omega⟩
      · rw [if_neg h2, Prod.mk.injEq] at he
        exact ⟨by omega, by omega⟩
  · rw [if_neg h1]
    by_cases h2 : s.orientation = 1
    · rw [if_pos h2]
      simp only [decide_eq_true_eq]
      constructor
      · rintro ⟨hx, hy1, hy2⟩
        refine ⟨(y - s.startRow).toNat, by omega, ?_⟩
        rw [if_pos h2, Prod.mk.injEq]
        exact ⟨by omega, hx.symm⟩
      · rintro ⟨i, hi, he⟩
        rw [if_pos h2, Prod.mk.injEq] at he
        exact ⟨he.2.symm, by omega, by omega⟩
    · rw [if_neg h2]
      simp only [decide_eq_true_eq]
      constructor
      · rintro ⟨hy, hx1, hx2⟩
        refine ⟨(s.startCol - x).toNat, by omega, ?_⟩
        rw [if_neg h2, Prod.mk.injEq]
        exact ⟨hy.symm, by omega⟩
      · rintro ⟨i, hi, he⟩
        rw [if_neg h2, Prod.mk.injEq] at he
        exact ⟨he.1.symm, by omega, by omega⟩

theorem shipCells_nodup (s : ActiveShip) : (shipCells s).Nodup := by
  unfold shipCells
  refine List.Nodup.map ?_ (List.nodup_range _)
  intro i j hij
  unfold shipCell at hij
  split at hij <;> (rw [Prod.mk.injEq] at hij; omega)

/-! ### Ship scan lemmas -/


theorem scanShips_some_spec (sym : Char) (x y : Int) (l pre post : List ActiveShip)
    (s : ActiveShip) (h : scanShips sym x y l = some (pre, s, post)) :
    l = pre ++ s :: post ∧ shotMatch sym x y s ∧
      ∀ t ∈ pre, ¬shotMatch sym x y t := by
  induction l generalizing pre with
  | nil => simp [scanShips] at h
  | cons a rest ih =>
    unfold scanShips at h
    by_cases hp : ¬a.isSunk ∧ a.symbol = sym ∧ shipHitTest a x y = true
    · rw [if_pos hp] at h
      injection h with h2
      rw [Prod.mk.injEq, Prod.mk.injEq] at h2
      obtain ⟨hpre, hs, hpost⟩ := h2
      subst hpre; subst hs; subst hpost
      exact ⟨rfl, hp, by simp⟩
    · rw [if_neg hp] at h
      cases hscan : scanShips sym x y rest with
      | none => rw [hscan] at h; simp at h
      | some t =>
        rw [hscan] at h
        simp only [Option.map_some'] at h
        injection h with h2
        rw [Prod.mk.injEq, Prod.mk.injEq] at h2
        obtain ⟨hpre, hs, hpost⟩ := h2
        obtain ⟨ht1, ht2, ht3⟩ := ih (t.1) (by rw [hscan, ← hs, ← hpost])
        refine ⟨?_, ht2, ?_⟩
        · rw [← hpre, ht1]; rfl
        · intro u hu
          rw [← hpre] at hu
          rcases List.mem_cons.mp hu with h3 | h3
          · subst h3; exact hp
          · exact ht3 u h3

theorem scanShips_none_spec (sym : Char) (x y : Int) (l : List ActiveShip)
    (h : scanShips sym x y l = none) : ∀ t ∈ l, ¬shotMatch sym x y t := by
  induction l with
  | nil => simp
  | cons a rest ih =>
    unfold scanShips at h
    by_cases hp : ¬a.isSunk ∧ a.symbol = sym ∧ shipHitTest a x y = true
    · rw [if_pos hp] at h; simp at h
    · rw [if_neg hp] at h
      intro t ht
      rcases List.mem_cons.mp ht with h3 | h3
      · subst h3; exact hp
      · cases hscan : scanShips sym x y rest with
        | none => exact ih hscan t h3
        | some u => rw [hscan] at h; simp at h

theorem scanShips_first (sym : Char) (x y : Int) (pre post : List ActiveShip)
    (s : ActiveShip) (hfirst : ∀ t ∈ pre, ¬shotMatch sym x y t)
    (hs : shotMatch sym x y s) :
    scanShips sym x y (pre ++ s :: post) = some (pre, s, post) := by
  induction pre with
  | nil =>
    show scanShips sym x y (s :: post) = _
    unfold scanShips
    rw [if_pos (show ¬s.isSunk = true ∧ s.symbol = sym ∧ shipHitTest s x y = true from hs)]
  | cons a rest ih =>
    have ha : ¬(¬a.isSunk = true ∧ a.symbol = sym ∧ shipHitTest a x y = true) :=
      hfirst a (by simp)
    show scanShips sym x y (a :: (rest ++ s :: post)) = _
    unfold scanShips
    rw [if_neg ha, ih (fun t ht => hfirst t (by simp [ht]))]
    rfl

/-! ### Paint and sunk-marking lemmas -/

theorem paintCells_shape (g : Grid) (n : Int) (L : List (Int × Int)) (ch : Char)
    (h : gridShape g n) : gridShape (paintCells g L ch) n := by
  induction L generalizing g with
  | nil => exact h
  | cons p rest ih => exact ih _ (gridShape_set _ _ _ _ _ h)

theorem gridGet_paintCells_notmem (g : Grid) (L : List (Int × Int)) (ch : Char)
    (r c : Int) (h : (r, c) ∉ L) :
    gridGet (paintCells g L ch) r c = gridGet g r c := by
  induction L generalizing g with
  | nil => rfl
  | cons p rest ih =>
    have h1 : (r, c) ≠ p := fun he => h (by simp [he])
    have h2 : (r, c) ∉ rest := fun he => h (by simp [he])
    show gridGet (paintCells (gridSet g p.1 p.2 ch) rest ch) r c = _
    rw [ih _ h2, gridGet_gridSet_ne]
    intro hc
    exact h1 (by cases p; simp_all)

theorem gridGet_paintCells_mem (g : Grid) (n : Int) (L : List (Int × Int)) (ch : Char)
    (r c : Int) (hsh : gridShape g n) (hmem : (r, c) ∈ L) (hin : inB n (r, c)) :
    gridGet (paintCells g L ch) r c = ch := by
  induction L generalizing g with
  | nil => simp at hmem
  | cons p rest ih =>
    show gridGet (paintCells (gridSet g p.1 p.2 ch) rest ch) r c = ch
    by_cases hr : (r, c) ∈ rest
    · exact ih _ (gridShape_set _ _ _ _ _ hsh) hr
    · have hp : p = (r, c) := by
        rcases List.mem_cons.mp hmem with h3 | h3
        · exact h3.symm
        · exact absurd h3 hr
      subst hp
      rw [gridGet_paintCells_notmem _ _ _ _ _ hr]
      exact gridGet_gridSet_self _ n _ _ _ hsh hin.1 hin.2.1 hin.2.2.1 hin.2.2.2


theorem markSunkCells_eq_markList (g : Grid) (n : Int) (s : ActiveShip) :
    markSunkCells g n s = markList g n (shipCells s) := rfl

theorem markList_shape (g : Grid) (n : Int) (L : List (Int × Int))
    (h : gridShape g n) : gridShape (markList g n L) n := by
  induction L generalizing g with
  | nil => exact h
  | cons p rest ih =>
    show gridShape (markList (if inB n p then gridSet g p.1 p.2 's' else g) n rest) n
    split
    · exact ih _ (gridShape_set _ _ _ _ _ h)
    · exact ih _ h

theorem gridGet_markList_notmem (g : Grid) (n : Int) (L : List (Int × Int))
    (r c : Int) (h : (r, c) ∉ L) :
    gridGet (markList g n L) r c = gridGet g r c := by
  induction L generalizing g with
  | nil => rfl
  | cons p rest ih =>
    have h1 : (r, c) ≠ p := fun he => h (by simp [he])
    have h2 : (r, c) ∉ rest := fun he => h (by simp [he])
    show gridGet (markList (if inB n p then gridSet g p.1 p.2 's' else g) n rest) r c = _
    rw [ih _ h2]
    split
    · rw [gridGet_gridSet_ne]
      intro hc
      exact h1 (by cases p; simp_all)
    · rfl

theorem gridGet_markList_mem (g : Grid) (n : Int) (L : List (Int × Int))
    (r c : Int) (hsh : gridShape g n) (hmem : (r, c) ∈ L) (hin : inB n (r, c)) :
    gridGet (markList g n L) r c = 's' := by
  induction L generalizing g with
  | nil => simp at hmem
  | cons p rest ih =>
    show gridGet (markList (if inB n p then gridSet g p.1 p.2 's' else g) n rest) r c = 's'
    by_cases hr : (r, c) ∈ rest
    · split
      · exact ih _ (gridShape_set _ _ _ _ _ hsh) hr
      · exact ih _ hsh hr
    · have hp : p = (r, c) := by
        rcases List.mem_cons.mp hmem with h3 | h3
        · exact h3.symm
        · exact absurd h3 hr
      subst hp
      rw [if_pos hin, gridGet_markList_notmem _ _ _ _ _ hr]
      exact gridGet_gridSet_self _ n _ _ _ hsh hin.1 hin.2.1 hin.2.2.1 hin.2.2.2


/-- C1: a shot at an in-bounds cell holding a ship's symbol increments that
ship's hit count; if the count then equals the ship's length every cell of
the ship becomes `'s'` and the result is `2` (Sunk), otherwise only the shot
cell becomes `'x'` and the result is `1` (Hit). The Scenario A trace
(vertical 3-ship on (5,5),(5,6),(5,7); shots (0,0),(5,5),(5,5),(5,6),(5,7))
yields Miss, Hit, Miss, Hit, Sunk with all three ship cells ending `'s'`. -/
theorem receiveShot_ship_hit (b : BoardData) (x y : Int) (s : ActiveShip)
    (pre post : List ActiveShip)
    (hsh : gridShape b.boardArray b.boardSize)
    (hin : 0 ≤ x ∧ x < b.boardSize ∧ 0 ≤ y ∧ y < b.boardSize)
    (hcell : gridGet b.boardArray y x = s.symbol)
    (hsym : 'A' ≤ s.symbol ∧ s.symbol ≤ 'Z')
    (hships : b.myShips = pre ++ s :: post)
    (hsunk : s.isSunk = false) (hcover : shipHitTest s x y = true)
    (hfirst : ∀ t ∈ pre, ¬shotMatch s.symbol x y t)
    (hgeom : ∀ p ∈ shipCells s, inB b.boardSize p) :
    ((s.hitCount + 1 = s.length →
        (receiveShot b x y).1 = 2 ∧
        (receiveShot b x y).2.myShips =
          pre ++ { s with hitCount := s.hitCount + 1, isSunk := true } :: post ∧
        ∀ p ∈ shipCells s, gridGet (receiveShot b x y).2.boardArray p.1 p.2 = 's') ∧
      (s.hitCount + 1 < s.length →
        (receiveShot b x y).1 = 1 ∧
        (receiveShot b x y).2.myShips = pre ++ { s with hitCount := s.hitCount + 1 } :: post ∧
        (receiveShot b x y).2.boardArray = gridSet b.boardArray y x 'x')) ∧
    (let b0 := addShip (initBoard 10) 1 55 3 'A'
     let r1 := receiveShot b0 0 0
     let r2 := receiveShot r1.2 5 5
     let r3 := receiveShot r2.2 5 5
     let r4 := receiveShot r3.2 5 6
     let r5 := receiveShot r4.2 5 7
     r1.1 = 0 ∧ r2.1 = 1 ∧ r3.1 = 0 ∧ r4.1 = 1 ∧ r5.1 = 2 ∧
     gridGet r5.2.boardArray 5 5 = 's' ∧ gridGet r5.2.boardArray 6 5 = 's' ∧
     gridGet r5.2.boardArray 7 5 = 's') := by
  have hnotresolved : ¬(s.symbol = 'x' ∨ s.symbol = 'o' ∨ s.symbol = 's') := by
    rintro (h | h | h) <;>
      · have := h ▸ hsym
        revert this
        decide
  have hnotwater : ¬(s.symbol = 'w') := by
    intro h
    have := h ▸ hsym
    revert this
    decide
  have hscan : scanShips s.symbol x y b.myShips = some (pre, s, post) := by
    rw [hships]
    exact scanShips_first _ _ _ _ _ _ hfirst ⟨by simp [hsunk], rfl, hcover⟩
  constructor
  · have hred : receiveShot b x y =
        (let s1 : ActiveShip := { s with hitCount := s.hitCount + 1 }
         if s1.length ≤ s1.hitCount then
          let s2 : ActiveShip := { s1 with isSunk := true }
          (2, { b with
                myShips := pre ++ s2 :: post,
                shipStatus := mapSet b.shipStatus s.symbol
                  { mapGet b.shipStatus s.symbol with isSunk := true, hitCount := s1.hitCount },
                boardArray := markSunkCells b.boardArray b.boardSize s2 })
        else
          (1, { b with
                myShips := pre ++ s1 :: post,
                shipStatus := mapSet b.shipStatus s.symbol
                  { mapGet b.shipStatus s.symbol with hitCount := s1.hitCount },
                boardArray := gridSet b.boardArray y x 'x' })) := by
      unfold receiveShot
      rw [if_neg (not_not_intro hin)]
      simp only [hcell]
      rw [if_neg hnotresolved, if_neg hnotwater, if_pos hsym, hscan]
    constructor
    · intro heq
      have hc : ({ s with hitCount := s.hitCount + 1 } : ActiveShip).length ≤
          ({ s with hitCount := s.hitCount + 1 } : ActiveShip).hitCount := by
        show s.length ≤ s.hitCount + 1
        omega
      rw [hred]
      simp only [if_pos hc]
      refine ⟨by trivial, by trivial, ?_⟩
      intro p hp
      show gridGet (markSunkCells b.boardArray b.boardSize _) p.1 p.2 = 's'
      rw [markSunkCells_eq_markList]
      exact gridGet_markList_mem _ _ _ _ _ hsh (by simpa [shipCells_congr] using hp)
        (by rcases p with ⟨pr, pc⟩; exact hgeom _ hp)
    · intro hlt
      have hc : ¬(({ s with hitCount := s.hitCount + 1 } : ActiveShip).length ≤
          ({ s with hitCount := s.hitCount + 1 } : ActiveShip).hitCount) := by
        show ¬(s.length ≤ s.hitCount + 1)
        omega
      rw [hred]
      simp only [if_neg hc]
      exact ⟨by trivial, by trivial, by trivial⟩
  · decide

/-- Witness for C1: the second Scenario A shot, `(5,5)` on the fresh vertical
3-ship, instantiates the theorem; its "not yet sunk" branch fires. -/
theorem receiveShot_ship_hit_witness :
    (receiveShot (addShip (initBoard 10) 1 55 3 'A') 5 5).1 = 1 ∧
    (receiveShot (addShip (initBoard 10) 1 55 3 'A') 5 5).2.boardArray =
      gridSet (addShip (initBoard 10) 1 55 3 'A').boardArray 5 5 'x' := by
  have h := receiveShot_ship_hit (addShip (initBoard 10) 1 55 3 'A') 5 5
    ⟨0, 'A', 3, 0, false, 5, 5, 1⟩ [] []
    (by decide) (by decide) (by decide) (by decide) (by decide) (by decide)
    (by decide) (by decide) (by decide)
  obtain ⟨⟨_, h2⟩, _⟩ := h
  obtain ⟨ha, _, hb⟩ := h2 (by decide)
  exact ⟨ha, hb⟩

/-! ### Manual placement (C8) -/

theorem gridGetChecked_some (g : Grid) (n r c : Int) (ch : Char)
    (hsh : gridShape g n) (h : gridGetChecked g r c = some ch) :
    0 ≤ r ∧ r < n ∧ 0 ≤ c ∧ c < n ∧ gridGet g r c = ch := by
  have hlen := hsh.1
  unfold gridGetChecked at h
  split at h
  case isFalse => simp at h
  case isTrue hrc =>
    cases hg : g[r.toNat]? with
    | none => rw [hg] at h; simp at h
    | some row =>
      rw [hg] at h
      simp only [Option.some_bind] at h
      have hrlt : r.toNat < g.length := by
        by_contra hge
        rw [List.getElem?_eq_none (Nat.le_of_not_lt hge)] at hg
        exact Option.noConfusion hg
      have hrow : g[r.toNat] = row := by
        rw [List.getElem?_eq_getElem hrlt] at hg
        exact Option.some.inj hg
      have hclt : c.toNat < row.length := by
        by_contra hge
        rw [List.getElem?_eq_none (Nat.le_of_not_lt hge)] at h
        exact Option.noConfusion h
      have hrowlen : row.length = n.toNat := hrow ▸ hsh.2 _ (List.getElem_mem hrlt)
      refine ⟨hrc.1, by omega, hrc.2, by omega, ?_⟩
      rw [gridGet_eq, if_pos hrc, hg]
      simp only [Option.getD_some]
      rw [h]
      rfl

theorem gridGetChecked_of_inB (g : Grid) (n r c : Int)
    (hsh : gridShape g n) (hr : 0 ≤ r) (hr2 : r < n) (hc : 0 ≤ c) (hc2 : c < n) :
    gridGetChecked g r c = some (gridGet g r c) := by
  obtain ⟨h1, h2⟩ := hsh
  have hrlt : r.toNat < g.length := by omega
  have hrow : g[r.toNat].length = n.toNat := h2 _ (List.getElem_mem hrlt)
  have hclt : c.toNat < g[r.toNat].length := by omega
  unfold gridGetChecked
  rw [if_pos ⟨hr, hc⟩, List.getElem?_eq_getElem hrlt]
  simp only [Option.some_bind]
  rw [List.getElem?_eq_getElem hclt, gridGet_eq, if_pos ⟨hr, hc⟩,
    List.getElem?_eq_getElem hrlt]
  simp only [Option.getD_some]
  rw [List.getElem?_eq_getElem hclt]
  rfl

theorem validLoopH_some_true (b : BoardData) (gx gy : Int)
    (hsh : gridShape b.boardArray b.boardSize) :
    ∀ (fuel : Nat) (i : Int),
      (validLoopH b gx gy fuel i = some true ↔
        ∀ j : Nat, j < fuel →
          0 ≤ gy ∧ gy < b.boardSize ∧ 0 ≤ gx - (i + j) ∧ gx - (i + j) < b.boardSize ∧
          gridGet b.boardArray gy (gx - (i + j)) = 'w') := by
  intro fuel
  induction fuel with
  | zero =>
    intro i
    constructor
    · intro _ j hj; omega
    · intro _; rfl
  | succ fuel ih =>
    intro i
    unfold validLoopH
    by_cases h1 : gx - i < 0 ∨ b.boardSize ≤ gx - i
    · rw [if_pos h1]
      constructor
      · intro h; exact absurd h (by simp)
      · intro hall
        have h0 := hall 0 (by omega)
        exfalso
        omega
    · rw [if_neg h1]
      push_neg at h1
      cases hgc : gridGetChecked b.boardArray gy (gx - i) with
      | none =>
        show (none : Option Bool) = some true ↔ _
        constructor
        · intro h; exact absurd h (by simp)
        · intro hall
          have h0 := hall 0 (by omega)
          have : gx - (i + ((0 : Nat) : Int)) = gx - i := by push_cast; ring
          rw [this] at h0
          rw [gridGetChecked_of_inB b.boardArray b.boardSize gy (gx - i) hsh
            h0.1 h0.2.1 h0.2.2.1 h0.2.2.2.1] at hgc
          exact Option.noConfusion hgc
      | some ch =>
        show (if ch ≠ 'w' then some false else validLoopH b gx gy fuel (i + 1)) = some true ↔ _
        have hcs := gridGetChecked_some b.boardArray b.boardSize gy (gx - i) ch hsh hgc
        by_cases hch : ch ≠ 'w'
        · rw [if_pos hch]
          constructor
          · intro h; exact absurd h (by simp)
          · intro hall
            have h0 := hall 0 (by omega)
            have harg : gx - (i + ((0 : Nat) : Int)) = gx - i := by push_cast; ring
            rw [harg] at h0
            exact (hch (hcs.2.2.2.2 ▸ h0.2.2.2.2)).elim
        · rw [if_neg hch]
          push_neg at hch
          rw [ih (i + 1)]
          constructor
          · intro hall j hj
            rcases Nat.eq_zero_or_pos j with hj0 | hjpos
            · subst hj0
              have harg : gx - (i + ((0 : Nat) : Int)) = gx - i := by push_cast; ring
              rw [harg]
              exact ⟨hcs.1, hcs.2.1, by omega, by omega, hch ▸ hcs.2.2.2.2⟩
            · have := hall (j - 1) (by omega)
              have harg : gx - (i + 1 + ((j - 1 : Nat) : Int)) = gx - (i + j) := by
                push_cast [Nat.cast_sub hjpos]; ring
              rw [harg] at this
              exact this
          · intro hall j hj
            have := hall (j + 1) (by omega)
            have harg : gx - (i + ((j + 1 : Nat) : Int)) = gx - (i + 1 + j) := by
              push_cast; ring
            rw [harg] at this
            exact this

theorem validLoopV_some_true (b : BoardData) (gx gy : Int)
    (hsh : gridShape b.boardArray b.boardSize) :
    ∀ (fuel : Nat) (i : Int),
      (validLoopV b gx gy fuel i = some true ↔
        ∀ j : Nat, j < fuel →
          0 ≤ gy - (i + j) ∧ gy - (i + j) < b.boardSize ∧ 0 ≤ gx ∧ gx < b.boardSize ∧
          gridGet b.boardArray (gy - (i + j)) gx = 'w') := by
  intro fuel
  induction fuel with
  | zero =>
    intro i
    constructor
    · intro _ j hj; omega
    · intro _; rfl
  | succ fuel ih =>
    intro i
    unfold validLoopV
    by_cases h1 : gy - i < 0 ∨ b.boardSize ≤ gy - i
    · rw [if_pos h1]
      constructor
      · intro h; exact absurd h (by simp)
      · intro hall
        have h0 := hall 0 (by omega)
        exfalso
        omega
    · rw [if_neg h1]
      push_neg at h1
      cases hgc : gridGetChecked b.boardArray (gy - i) gx with
      | none =>
        show (none : Option Bool) = some true ↔ _
        constructor
        · intro h; exact absurd h (by simp)
        · intro hall
          have h0 := hall 0 (by omega)
          have : gy - (i + ((0 : Nat) : Int)) = gy - i := by push_cast; ring
          rw [this] at h0
          rw [gridGetChecked_of_inB b.boardArray b.boardSize (gy - i) gx hsh
            h0.1 h0.2.1 h0.2.2.1 h0.2.2.2.1] at hgc
          exact Option.noConfusion hgc
      | some ch =>
        show (if ch ≠ 'w' then some false else validLoopV b gx gy fuel (i + 1)) = some true ↔ _
        have hcs := gridGetChecked_some b.boardArray b.boardSize (gy - i) gx ch hsh hgc
        by_cases hch : ch ≠ 'w'
        · rw [if_pos hch]
          constructor
          · intro h; exact absurd h (by simp)
          · intro hall
            have h0 := hall 0 (by omega)
            have harg : gy - (i + ((0 : Nat) : Int)) = gy - i := by push_cast; ring
            rw [harg] at h0
            exact (hch (hcs.2.2.2.2 ▸ h0.2.2.2.2)).elim
        · rw [if_neg hch]
          push_neg at hch
          rw [ih (i + 1)]
          constructor
          · intro hall j hj
            rcases Nat.eq_zero_or_pos j with hj0 | hjpos
            · subst hj0
              have harg : gy - (i + ((0 : Nat) : Int)) = gy - i := by push_cast; ring
              rw [harg]
              exact ⟨by omega, by omega, hcs.2.2.1, hcs.2.2.2.1, hch ▸ hcs.2.2.2.2⟩
            · have := hall (j - 1) (by omega)
              have harg : gy - (i + 1 + ((j - 1 : Nat) : Int)) = gy - (i + j) := by
                push_cast [Nat.cast_sub hjpos]; ring
              rw [harg] at this
              exact this
          · intro hall j hj
            have := hall (j + 1) (by omega)
            have harg : gy - (i + ((j + 1 : Nat) : Int)) = gy - (i + 1 + j) := by
              push_cast; ring
            rw [harg] at this
            exact this

theorem isValidShipPlacement_some_true_iff (b : BoardData) (gx gy orientation len : Int)
    (hsh : gridShape b.boardArray b.boardSize) :
    isValidShipPlacement b gx gy orientation len = some true ↔
      ∀ p ∈ placeCells gx gy orientation len,
        inB b.boardSize p ∧ gridGet b.boardArray p.1 p.2 = 'w' := by
  unfold isValidShipPlacement placeCells
  by_cases ho : orientation = 0
  · rw [if_pos ho, validLoopH_some_true b gx gy hsh len.toNat 0]
    simp only [ho, if_true]
    constructor
    · intro hall p hp
      rw [List.mem_map] at hp
      obtain ⟨j, hj, rfl⟩ := hp
      rw [List.mem_range] at hj
      have := hall j hj
      have harg : gx - (0 + (j : Int)) = gx - j := by ring
      rw [harg] at this
      exact ⟨⟨this.1, this.2.1, this.2.2.1, this.2.2.2.1⟩, this.2.2.2.2⟩
    · intro hall j hj
      have := hall (gy, gx - j) (by
        rw [List.mem_map]
        exact ⟨j, List.mem_range.mpr hj, rfl⟩)
      have harg : gx - (0 + (j : Int)) = gx - j := by ring
      rw [harg]
      exact ⟨this.1.1, this.1.2.1, this.1.2.2.1, this.1.2.2.2, this.2⟩
  · rw [if_neg ho, validLoopV_some_true b gx gy hsh len.toNat 0]
    simp only [ho, if_false]
    constructor
    · intro hall p hp
      rw [List.mem_map] at hp
      obtain ⟨j, hj, rfl⟩ := hp
      rw [List.mem_range] at hj
      have := hall j hj
      have harg : gy - (0 + (j : Int)) = gy - j := by ring
      rw [harg] at this
      exact ⟨⟨this.1, this.2.1, this.2.2.1, this.2.2.2.1⟩, this.2.2.2.2⟩
    · intro hall j hj
      have := hall (gy - j, gx) (by
        rw [List.mem_map]
        exact ⟨j, List.mem_range.mpr hj, rfl⟩)
      have harg : gy - (0 + (j : Int)) = gy - j := by ring
      rw [harg]
      exact ⟨this.1.1, this.1.2.1, this.1.2.2.1, this.1.2.2.2, this.2⟩

/-- C8: the validity check accepts exactly the placements whose every cell is
in bounds and water; on success `placeShip` returns `true` and paints exactly
the prospective cells with the ship's symbol (everything else in the board
unchanged); on a failed check it returns `false` and changes nothing. -/
theorem placeShip_spec (b : BoardData) (gx gy orientation len : Int) (sym : Char)
    (hsh : gridShape b.boardArray b.boardSize) :
    (isValidShipPlacement b gx gy orientation len = some true ↔
      ∀ p ∈ placeCells gx gy orientation len,
        inB b.boardSize p ∧ gridGet b.boardArray p.1 p.2 = 'w') ∧
    (isValidShipPlacement b gx gy orientation len = some true →
      ∃ b', placeShipOp b gx gy orientation len sym = some (true, b') ∧
        b'.myShips = b.myShips ∧ b'.shipStatus = b.shipStatus ∧
        b'.boardSize = b.boardSize ∧ b'.missCount = b.missCount ∧
        ∀ r c : Int, gridGet b'.boardArray r c =
          if (r, c) ∈ placeCells gx gy orientation len then sym
          else gridGet b.boardArray r c) ∧
    (isValidShipPlacement b gx gy orientation len = some false →
      placeShipOp b gx gy orientation len sym = some (false, b)) := by
  refine ⟨isValidShipPlacement_some_true_iff b gx gy orientation len hsh, ?_, ?_⟩
  · intro hv
    refine ⟨{ b with boardArray := paintCells b.boardArray (placeCells gx gy orientation len) sym }, ?_, rfl, rfl, rfl, rfl, ?_⟩
    · unfold placeShipOp
      rw [hv]
    intro r c
    have hgood := (isValidShipPlacement_some_true_iff b gx gy orientation len hsh).mp hv
    by_cases hmem : (r, c) ∈ placeCells gx gy orientation len
    · rw [if_pos hmem]
      exact gridGet_paintCells_mem _ b.boardSize _ _ _ _ hsh hmem (hgood _ hmem).1
    · rw [if_neg hmem]
      exact gridGet_paintCells_notmem _ _ _ _ _ hmem
  · intro hv
    unfold placeShipOp
    rw [hv]

/-- Witness for C8: the theorem instantiated on a fresh 10×10 board at the
horizontal length-3 request `(5, 5)` with symbol `'H'`. -/
theorem placeShip_spec_witness :
    (isValidShipPlacement (initBoard 10) 5 5 0 3 = some true ↔
      ∀ p ∈ placeCells 5 5 0 3,
        inB (initBoard 10).boardSize p ∧ gridGet (initBoard 10).boardArray p.1 p.2 = 'w') ∧
    (isValidShipPlacement (initBoard 10) 5 5 0 3 = some true →
      ∃ b', placeShipOp (initBoard 10) 5 5 0 3 'H' = some (true, b') ∧
        b'.myShips = (initBoard 10).myShips ∧ b'.shipStatus = (initBoard 10).shipStatus ∧
        b'.boardSize = (initBoard 10).boardSize ∧ b'.missCount = (initBoard 10).missCount ∧
        ∀ r c : Int, gridGet b'.boardArray r c =
          if (r, c) ∈ placeCells 5 5 0 3 then 'H'
          else gridGet (initBoard 10).boardArray r c) ∧
    (isValidShipPlacement (initBoard 10) 5 5 0 3 = some false →
      placeShipOp (initBoard 10) 5 5 0 3 'H' = some (false, initBoard 10)) :=
  placeShip_spec (initBoard 10) 5 5 0 3 'H' (by decide)

/-! ### AI targeting lemmas (C6, C7, C10) -/

theorem drainQueue_none_of (avail parity : List (Int × Int)) (q : List (Int × Int))
    (h : ∀ c ∈ q, c ∉ avail) : drainQueue avail parity q = none := by
  induction q with
  | nil => rfl
  | cons c qs ih =>
    unfold drainQueue
    rw [if_neg (h c (by simp))]
    exact ih (fun d hd => h d (by simp [hd]))

theorem drainQueue_first (avail parity : List (Int × Int))
    (q1 : List (Int × Int)) (c : Int × Int) (q2 : List (Int × Int))
    (h1 : ∀ d ∈ q1, d ∉ avail) (hc : c ∈ avail) :
    drainQueue avail parity (q1 ++ c :: q2) =
      some (c, q2, avail.erase c, parity.erase c) := by
  induction q1 with
  | nil =>
    show drainQueue avail parity (c :: q2) = _
    unfold drainQueue
    rw [if_pos hc]
  | cons d q1' ih =>
    show drainQueue avail parity (d :: (q1' ++ c :: q2)) = _
    unfold drainQueue
    rw [if_neg (h1 d (by simp))]
    exact ih (fun e he => h1 e (by simp [he]))

theorem getLastD_mem (l : List (Int × Int)) (d : Int × Int) (h : l ≠ []) :
    l.getLastD d ∈ l := by
  rw [List.getLastD_eq_getLast?, List.getLast?_eq_getLast l h]
  simp only [Option.getD_some]
  exact List.getLast_mem h

theorem getLastD_not_mem_dropLast (l : List (Int × Int)) (d : Int × Int)
    (h : l ≠ []) (hnd : l.Nodup) : l.getLastD d ∉ l.dropLast := by
  rw [List.getLastD_eq_getLast?, List.getLast?_eq_getLast l h]
  simp only [Option.getD_some]
  intro hmem
  have hsplit := List.dropLast_append_getLast h
  rw [← hsplit] at hnd
  rcases List.nodup_append.mp hnd with ⟨_, _, hdisj⟩
  exact hdisj hmem (by simp)

theorem nodup_getD_not_mem_eraseIdx (l : List (Int × Int)) (i : Nat)
    (hnd : l.Nodup) (hi : i < l.length) :
    l.getD i (-1, -1) ∉ l.eraseIdx i := by
  rw [List.getD_eq_getElem?_getD, List.getElem?_eq_getElem hi]
  simp only [Option.getD_some]
  intro hmem
  rw [List.mem_eraseIdx_iff_getElem] at hmem
  obtain ⟨j, hj, hji, hget⟩ := hmem
  exact hji (hnd.getElem_inj_iff.mp hget)

theorem getD_mem_of_lt (l : List (Int × Int)) (i : Nat) (hi : i < l.length) :
    l.getD i (-1, -1) ∈ l := by
  rw [List.getD_eq_getElem?_getD, List.getElem?_eq_getElem hi]
  simp only [Option.getD_some]
  exact List.getElem_mem hi

/-- C6: Smart targeting priority. Queue entries still in the untried pool win
(skipping since-tried entries ahead); else a cell is taken from the back of
the parity pool; else one is drawn from the remaining untried pool; the
returned cell is removed from the untried pools. -/
theorem pickAttackCoordinates_smart_priority (st : AIState)
    (hd : st.difficulty = .smart)
    (hndA : st.availableShots.Nodup) (hndP : st.parityShots.Nodup)
    (hsub : ∀ c ∈ st.parityShots, c ∈ st.availableShots) :
    (∀ q1 c q2, st.targetQueue = q1 ++ c :: q2 → (∀ d ∈ q1, d ∉ st.availableShots) →
      c ∈ st.availableShots →
      (pickAttackCoordinates st).1 = c ∧
      (pickAttackCoordinates st).2.targetQueue = q2 ∧
      c ∉ (pickAttackCoordinates st).2.availableShots ∧
      c ∉ (pickAttackCoordinates st).2.parityShots) ∧
    ((∀ d ∈ st.targetQueue, d ∉ st.availableShots) → st.parityShots ≠ [] →
      (pickAttackCoordinates st).1 ∈ st.parityShots ∧
      (pickAttackCoordinates st).2.parityShots = st.parityShots.dropLast ∧
      (pickAttackCoordinates st).2.targetQueue = [] ∧
      (pickAttackCoordinates st).1 ∉ (pickAttackCoordinates st).2.availableShots ∧
      (pickAttackCoordinates st).1 ∉ (pickAttackCoordinates st).2.parityShots) ∧
    ((∀ d ∈ st.targetQueue, d ∉ st.availableShots) → st.parityShots = [] →
      st.availableShots ≠ [] →
      (pickAttackCoordinates st).1 ∈ st.availableShots ∧
      (pickAttackCoordinates st).2.targetQueue = [] ∧
      (pickAttackCoordinates st).1 ∉ (pickAttackCoordinates st).2.availableShots) := by
  have hde : ¬(st.difficulty = .easy) := by rw [hd]; intro h; exact AIDifficulty.noConfusion h
  refine ⟨?_, ?_, ?_⟩
  · intro q1 c q2 hq h1 hc
    have hne : ¬st.availableShots.isEmpty := by
      rw [List.isEmpty_iff]
      intro h0
      rw [h0] at hc
      exact absurd hc (List.not_mem_nil c)
    unfold pickAttackCoordinates
    rw [if_neg hne, if_neg hde, hq, drainQueue_first _ _ _ _ _ h1 hc]
    refine ⟨rfl, rfl, ?_, ?_⟩
    · intro hmem
      exact ((hndA.mem_erase_iff.mp hmem).1) rfl
    · intro hmem
      exact ((hndP.mem_erase_iff.mp hmem).1) rfl
  · intro hall hpne
    have hlast := getLastD_mem st.parityShots (-1, -1) hpne
    have hc : st.parityShots.getLastD (-1, -1) ∈ st.availableShots := hsub _ hlast
    have hne : ¬st.availableShots.isEmpty := by
      rw [List.isEmpty_iff]
      intro h0
      rw [h0] at hc
      exact absurd hc (List.not_mem_nil _)
    unfold pickAttackCoordinates
    rw [if_neg hne, if_neg hde, drainQueue_none_of _ _ _ hall, if_pos hpne]
    refine ⟨hlast, rfl, rfl, ?_, ?_⟩
    · intro hmem
      exact ((hndA.mem_erase_iff.mp hmem).1) rfl
    · exact getLastD_not_mem_dropLast _ _ hpne hndP
  · intro hall hpe hane
    have hne : ¬st.availableShots.isEmpty := by
      rw [List.isEmpty_iff]; exact hane
    have hlen : 0 < st.availableShots.length := List.length_pos.mpr hane
    have hidx : st.rng.headD 0 % st.availableShots.length < st.availableShots.length :=
      Nat.mod_lt _ hlen
    unfold pickAttackCoordinates
    rw [if_neg hne, if_neg hde, drainQueue_none_of _ _ _ hall, if_neg (by simp [hpe])]
    exact ⟨getD_mem_of_lt _ _ hidx, rfl, nodup_getD_not_mem_eraseIdx _ _ hndA hidx⟩

/-- Witness for C6: a concrete Smart state whose queue holds one since-tried
entry `(0, 0)` and one untried entry `(5, 4)`; the pick returns `(5, 4)`,
drops the stale entry, and removes `(5, 4)` from both pools. -/
theorem pickAttackCoordinates_smart_priority_witness :
    (pickAttackCoordinates
      { difficulty := .smart, opponentBoard := [], lastHit := (-1, -1), hunting := false,
        availableShots := [(5, 4), (2, 2)], targetQueue := [(0, 0), (5, 4)],
        parityShots := [(2, 2)], boardSize := 10, rng := [0] }).1 = (5, 4) := by
  have h := pickAttackCoordinates_smart_priority
    { difficulty := .smart, opponentBoard := [], lastHit := (-1, -1), hunting := false,
      availableShots := [(5, 4), (2, 2)], targetQueue := [(0, 0), (5, 4)],
      parityShots := [(2, 2)], boardSize := 10, rng := [0] }
    (by decide) (by decide) (by decide) (by decide)
  exact (h.1 [(0, 0)] (5, 4) [] (by decide) (by decide) (by decide)).1

theorem recordShotResult_pools (st : AIState) (x y : Int) (hit sunk : Bool) :
    (recordShotResult st x y hit sunk).availableShots = st.availableShots ∧
    (recordShotResult st x y hit sunk).parityShots = st.parityShots ∧
    (recordShotResult st x y hit sunk).difficulty = st.difficulty ∧
    (recordShotResult st x y hit sunk).rng = st.rng ∧
    (recordShotResult st x y hit sunk).boardSize = st.boardSize := by
  unfold recordShotResult
  split
  · dsimp only
    split_ifs <;> exact ⟨rfl, rfl, rfl, rfl, rfl⟩
  · exact ⟨rfl, rfl, rfl, rfl, rfl⟩

theorem recordShotResult_hit_queue (st : AIState) (x y : Int)
    (hd : st.difficulty = .smart)
    (hx : 0 ≤ x ∧ x < st.boardSize ∧ 0 ≤ y ∧ y < st.boardSize) :
    (recordShotResult st x y true false).targetQueue =
      st.targetQueue ++
        addSmartNeighbors (gridSet st.opponentBoard y x 'X') x y st.boardSize := by
  unfold recordShotResult
  rw [if_pos hx]
  simp only [hd, if_pos rfl]
  rfl

/-- C7: on a Smart AI, recording an in-bounds hit that did not sink appends
exactly the in-bounds, still-unmarked orthogonal neighbours of the shot to
the follow-up queue (in source order); consequently a fresh Smart AI that is
told `recordOutcome(5,5,hit,notSunk)` next picks one of
`(4,5),(6,5),(5,4),(5,6)`. -/
theorem recordShotResult_enqueues_neighbors (st : AIState) (x y : Int)
    (hd : st.difficulty = .smart)
    (hx : 0 ≤ x ∧ x < st.boardSize ∧ 0 ≤ y ∧ y < st.boardSize) :
    ((recordShotResult st x y true false).targetQueue =
      st.targetQueue ++
        addSmartNeighbors (gridSet st.opponentBoard y x 'X') x y st.boardSize) ∧
    (∀ c : Int × Int,
      c ∈ addSmartNeighbors (gridSet st.opponentBoard y x 'X') x y st.boardSize ↔
        (((c.1 = x ∧ (c.2 = y - 1 ∨ c.2 = y + 1)) ∨
          (c.2 = y ∧ (c.1 = x - 1 ∨ c.1 = x + 1))) ∧
         0 ≤ c.1 ∧ c.1 < st.boardSize ∧ 0 ≤ c.2 ∧ c.2 < st.boardSize ∧
         (gridGet (gridSet st.opponentBoard y x 'X') c.2 c.1 = '?' ∨
          gridGet (gridSet st.opponentBoard y x 'X') c.2 c.1 = ' '))) ∧
    (∀ st' : AIState, st'.difficulty = .smart → st'.boardSize = 10 →
      st'.opponentBoard = List.replicate 10 (List.replicate 10 '?') →
      st'.targetQueue = [] → (5, 4) ∈ st'.availableShots →
      (pickAttackCoordinates (recordShotResult st' 5 5 true false)).1 ∈
        ([(5, 4), (5, 6), (4, 5), (6, 5)] : List (Int × Int))) := by
  refine ⟨recordShotResult_hit_queue st x y hd hx, ?_, ?_⟩
  · intro c
    unfold addSmartNeighbors
    rw [List.mem_filter]
    simp only [List.mem_cons, List.not_mem_nil, or_false, Bool.and_eq_true, decide_eq_true_eq]
    constructor
    · rintro ⟨hmem, hbnd, hch⟩
      rcases hmem with h | h | h | h <;>
        (subst h
         exact ⟨by simp, hbnd.1, hbnd.2.1, hbnd.2.2.1, hbnd.2.2.2, hch⟩)
    · rintro ⟨hshape, h1, h2, h3, h4, hch⟩
      refine ⟨?_, ⟨h1, h2, h3, h4⟩, hch⟩
      rcases hshape with ⟨ha, hb | hb⟩ | ⟨ha, hb | hb⟩
      · exact Or.inl (Prod.ext ha hb)
      · exact Or.inr (Or.inl (Prod.ext ha hb))
      · exact Or.inr (Or.inr (Or.inl (Prod.ext hb ha)))
      · exact Or.inr (Or.inr (Or.inr (Prod.ext hb ha)))
  · intro st' hd' hsz hob hq h54
    have hx' : (0 : Int) ≤ 5 ∧ (5 : Int) < st'.boardSize ∧ (0 : Int) ≤ 5 ∧
        (5 : Int) < st'.boardSize := by
      rw [hsz]; refine ⟨by norm_num, by norm_num, by norm_num, by norm_num⟩
    have hqueue := recordShotResult_hit_queue st' 5 5 hd' hx'
    rw [hq, List.nil_append, hob, hsz] at hqueue
    have hnb : addSmartNeighbors
        (gridSet (List.replicate 10 (List.replicate 10 '?')) 5 5 'X') 5 5 10 =
        ([(5, 4), (5, 6), (4, 5), (6, 5)] : List (Int × Int)) := by decide
    rw [hnb] at hqueue
    have hpools := recordShotResult_pools st' 5 5 true false
    set st2 := recordShotResult st' 5 5 true false with hst2
    have havail : (5, 4) ∈ st2.availableShots := by rw [hpools.1]; exact h54
    have hne : ¬st2.availableShots.isEmpty := by
      rw [List.isEmpty_iff]
      intro h0
      rw [h0] at havail
      exact absurd havail (List.not_mem_nil _)
    have hde : ¬(st2.difficulty = .easy) := by
      rw [hpools.2.2.1, hd']
      intro h
      exact AIDifficulty.noConfusion h
    have hdrain : drainQueue st2.availableShots st2.parityShots
        ([(5, 4), (5, 6), (4, 5), (6, 5)] : List (Int × Int)) =
        some ((5, 4), ([(5, 6), (4, 5), (6, 5)] : List (Int × Int)),
          st2.availableShots.erase (5, 4), st2.parityShots.erase (5, 4)) := by
      unfold drainQueue
      rw [if_pos havail]
    unfold pickAttackCoordinates
    rw [if_neg hne, if_neg hde, hqueue, hdrain]
    simp

/-- Witness for C7: a fresh Smart AI whose pool holds `(5, 4)` reacts to the
recorded hit at `(5, 5)` by picking one of its four neighbours. -/
theorem recordShotResult_enqueues_neighbors_witness :
    (pickAttackCoordinates (recordShotResult
      { difficulty := .smart, opponentBoard := List.replicate 10 (List.replicate 10 '?'),
        lastHit := (-1, -1), hunting := false, availableShots := [(5, 4)],
        targetQueue := [], parityShots := [], boardSize := 10, rng := [] }
      5 5 true false)).1 ∈ ([(5, 4), (5, 6), (4, 5), (6, 5)] : List (Int × Int)) := by
  have h := recordShotResult_enqueues_neighbors
    { difficulty := .smart, opponentBoard := List.replicate 10 (List.replicate 10 '?'),
      lastHit := (-1, -1), hunting := false, availableShots := [(5, 4)],
      targetQueue := [], parityShots := [], boardSize := 10, rng := [] }
    5 5 (by decide) (by decide)
  exact h.2.2 _ (by decide) (by decide) (by decide) (by decide) (by decide)


theorem pick_empty (st : AIState) (h : st.availableShots = []) :
    pickAttackCoordinates st = ((-1, -1), st) := by
  unfold pickAttackCoordinates
  rw [if_pos (by rw [List.isEmpty_iff]; exact h)]

theorem drainQueue_some_spec (avail parity : List (Int × Int)) (q : List (Int × Int))
    (c : Int × Int) (qs av pv : List (Int × Int))
    (h : drainQueue avail parity q = some (c, qs, av, pv)) :
    c ∈ avail ∧ av = avail.erase c ∧ pv = parity.erase c := by
  induction q with
  | nil => exact absurd h (by simp [drainQueue])
  | cons a q' ih =>
    unfold drainQueue at h
    by_cases ha : a ∈ avail
    · rw [if_pos ha] at h
      injection h with h2
      rw [Prod.mk.injEq] at h2
      obtain ⟨hc, h3⟩ := h2
      rw [Prod.mk.injEq] at h3
      obtain ⟨hqs, h4⟩ := h3
      rw [Prod.mk.injEq] at h4
      subst hc
      exact ⟨ha, h4.1.symm, h4.2.symm⟩
    · rw [if_neg ha] at h
      exact ih h

theorem pick_spec (st : AIState) (hinv : AIInv st) (hne : st.availableShots ≠ []) :
    (pickAttackCoordinates st).1 ∈ st.availableShots ∧
    (pickAttackCoordinates st).1 ∉ (pickAttackCoordinates st).2.availableShots ∧
    (∀ d ∈ (pickAttackCoordinates st).2.availableShots, d ∈ st.availableShots) ∧
    AIInv (pickAttackCoordinates st).2 ∧
    (pickAttackCoordinates st).2.difficulty = st.difficulty := by
  obtain ⟨hndA, hndP, hsent, hsub⟩ := hinv
  have hemp : ¬st.availableShots.isEmpty := by rw [List.isEmpty_iff]; exact hne
  have hlen : 0 < st.availableShots.length := List.length_pos.mpr hne
  unfold pickAttackCoordinates
  rw [if_neg hemp]
  by_cases hde : st.difficulty = .easy
  · rw [if_pos hde]
    have hidx : st.rng.headD 0 % st.availableShots.length < st.availableShots.length :=
      Nat.mod_lt _ hlen
    refine ⟨getD_mem_of_lt _ _ hidx, nodup_getD_not_mem_eraseIdx _ _ hndA hidx,
      fun d hd => List.eraseIdx_subset _ _ hd, ⟨?_, hndP, ?_, ?_⟩, rfl⟩
    · exact hndA.sublist (List.eraseIdx_sublist _ _)
    · intro hmem
      exact hsent (List.eraseIdx_subset _ _ hmem)
    · intro hd
      rw [hde] at hd
      exact AIDifficulty.noConfusion hd
  · rw [if_neg hde]
    cases hdq : drainQueue st.availableShots st.parityShots st.targetQueue with
    | some t =>
      obtain ⟨c, qs, av, pv⟩ := t
      obtain ⟨hcmem, hav, hpv⟩ :=
        drainQueue_some_spec st.availableShots st.parityShots st.targetQueue c qs av pv hdq
      refine ⟨hcmem, ?_, ?_, ⟨?_, ?_, ?_, ?_⟩, rfl⟩
      · show c ∉ av
        rw [hav]
        intro hmem
        exact (hndA.mem_erase_iff.mp hmem).1 rfl
      · intro d hd
        show d ∈ st.availableShots
        rw [hav] at hd
        exact List.erase_subset _ _ hd
      · show av.Nodup
        rw [hav]; exact hndA.erase c
      · show pv.Nodup
        rw [hpv]; exact hndP.erase c
      · show (-1, -1) ∉ av
        rw [hav]
        intro hmem
        exact hsent (List.erase_subset _ _ hmem)
      · intro hd' d hd
        show d ∈ av
        rw [hpv] at hd
        rw [hav]
        have hd2 := hndP.mem_erase_iff.mp hd
        exact List.mem_erase_of_ne hd2.1 |>.mpr (hsub hd' d hd2.2)
    | none =>
      by_cases hp : st.parityShots ≠ []
      · rw [if_pos hp]
        have hds : st.difficulty = .smart := by
          cases hd : st.difficulty with
          | easy => exact absurd hd hde
          | smart => rfl
        have hlast := getLastD_mem st.parityShots (-1, -1) hp
        have hcm : st.parityShots.getLastD (-1, -1) ∈ st.availableShots :=
          hsub hds _ hlast
        refine ⟨hcm, ?_, fun d hd => List.erase_subset _ _ hd, ⟨hndA.erase _,
          hndP.sublist (List.dropLast_sublist _), ?_, ?_⟩, rfl⟩
        · intro hmem
          exact (hndA.mem_erase_iff.mp hmem).1 rfl
        · intro hmem
          exact hsent (List.erase_subset _ _ hmem)
        · intro _ d hd
          have hdp : d ∈ st.parityShots := List.dropLast_sublist _ |>.subset hd
          have hdc : d ≠ st.parityShots.getLastD (-1, -1) := by
            intro he
            exact getLastD_not_mem_dropLast _ _ hp hndP (he ▸ hd)
          exact List.mem_erase_of_ne hdc |>.mpr (hsub hds d hdp)
      · rw [if_neg hp]
        push_neg at hp
        have hidx : st.rng.headD 0 % st.availableShots.length < st.availableShots.length :=
          Nat.mod_lt _ hlen
        refine ⟨getD_mem_of_lt _ _ hidx, nodup_getD_not_mem_eraseIdx _ _ hndA hidx,
          fun d hd => List.eraseIdx_subset _ _ hd,
          ⟨hndA.sublist (List.eraseIdx_sublist _ _), by simp [hp], ?_, by simp [hp]⟩, rfl⟩
        intro hmem
        exact hsent (List.eraseIdx_subset _ _ hmem)

theorem record_inv (st : AIState) (x y : Int) (hit sunk : Bool) (h : AIInv st) :
    AIInv (recordShotResult st x y hit sunk) := by
  obtain ⟨h1, h2, h3, h4⟩ := h
  obtain ⟨p1, p2, p3, _, _⟩ := recordShotResult_pools st x y hit sunk
  exact ⟨p1 ▸ h1, p2 ▸ h2, p1 ▸ h3, fun hd => p1 ▸ p2 ▸ h4 (p3 ▸ hd)⟩

theorem runAIOps_picks (ops : List AIOp) :
    ∀ st : AIState, AIInv st →
      ((runAIOps st ops).2.filter (fun c => c ≠ (-1, -1))).Nodup ∧
      ∀ c ∈ (runAIOps st ops).2.filter (fun c => c ≠ (-1, -1)), c ∈ st.availableShots := by
  induction ops with
  | nil => exact fun st _ => ⟨List.nodup_nil, by simp [runAIOps]⟩
  | cons op rest ih =>
    intro st hinv
    cases op with
    | recordOp x y hit sunk =>
      obtain ⟨hn, hm⟩ := ih (recordShotResult st x y hit sunk) (record_inv _ _ _ _ _ hinv)
      refine ⟨hn, fun c hc => ?_⟩
      rw [← (recordShotResult_pools st x y hit sunk).1]
      exact hm c hc
    | pickOp =>
      have hrun : runAIOps st (AIOp.pickOp :: rest) =
          ((runAIOps (pickAttackCoordinates st).2 rest).1,
           (pickAttackCoordinates st).1 ::
             (runAIOps (pickAttackCoordinates st).2 rest).2) := rfl
      by_cases hne : st.availableShots = []
      · obtain ⟨hn, hm⟩ := ih st hinv
        have hpe := pick_empty st hne
        rw [hrun, hpe]
        show ((((-1 : Int), (-1 : Int)) :: (runAIOps st rest).2).filter
            (fun c => c ≠ (-1, -1))).Nodup ∧ _
        rw [List.filter_cons, if_neg (by decide)]
        exact ⟨hn, hm⟩
      · obtain ⟨hmem, hout, hsubst, hinv', _⟩ := pick_spec st hinv hne
        obtain ⟨hn, hm⟩ := ih (pickAttackCoordinates st).2 hinv'
        have hcne : (pickAttackCoordinates st).1 ≠ (-1, -1) := by
          intro he
          exact hinv.2.2.1 (he ▸ hmem)
        rw [hrun]
        show (((pickAttackCoordinates st).1 ::
            (runAIOps (pickAttackCoordinates st).2 rest).2).filter
            (fun c => c ≠ (-1, -1))).Nodup ∧ _
        rw [List.filter_cons, if_pos (by simpa using hcne)]
        constructor
        · rw [List.nodup_cons]
          refine ⟨fun hcmem => ?_, hn⟩
          exact hout (hm _ hcmem)
        · intro c hc
          rcases List.mem_cons.mp hc with h | h
          · exact h ▸ hmem
          · exact hsubst _ (hm _ h)

/-- C10: `pickAttackCoordinates` returns the `(-1, -1)` sentinel exactly when
the untried pool is exhausted; otherwise it returns an untried cell and
removes it from the pool, so across any interaction sequence with one AI
instance no real coordinate is ever returned twice. -/
theorem pickAttackCoordinates_no_repeat (st : AIState) (hinv : AIInv st) :
    ((pickAttackCoordinates st).1 = (-1, -1) ↔ st.availableShots = []) ∧
    (st.availableShots ≠ [] →
      (pickAttackCoordinates st).1 ∈ st.availableShots ∧
      (pickAttackCoordinates st).1 ∉ (pickAttackCoordinates st).2.availableShots) ∧
    (∀ ops : List AIOp,
      ((runAIOps st ops).2.filter (fun c => c ≠ (-1, -1))).Nodup) := by
  refine ⟨⟨?_, fun h => by rw [pick_empty st h]⟩, ?_, ?_⟩
  · intro hc
    by_contra hne
    obtain ⟨hmem, _, _, _, _⟩ := pick_spec st hinv hne
    exact hinv.2.2.1 (hc ▸ hmem)
  · intro hne
    obtain ⟨hmem, hout, _, _, _⟩ := pick_spec st hinv hne
    exact ⟨hmem, hout⟩
  · intro ops
    exact (runAIOps_picks ops st hinv).1

/-- Witness for C10: a two-cell Easy pool picked three times returns the two
cells and then the sentinel, with no repeats among the real coordinates. -/
theorem pickAttackCoordinates_no_repeat_witness :
    (((runAIOps
      { difficulty := .easy, opponentBoard := [], lastHit := (-1, -1), hunting := false,
        availableShots := [(0, 0), (1, 1)], targetQueue := [], parityShots := [],
        boardSize := 2, rng := [0, 0, 0] }
      [AIOp.pickOp, AIOp.pickOp, AIOp.pickOp]).2.filter
        (fun c => c ≠ (-1, -1))).Nodup) :=
  (pickAttackCoordinates_no_repeat
    { difficulty := .easy, opponentBoard := [], lastHit := (-1, -1), hunting := false,
      availableShots := [(0, 0), (1, 1)], targetQueue := [], parityShots := [],
      boardSize := 2, rng := [0, 0, 0] }
    ⟨by decide, by decide, by decide, by decide⟩).2.2
    [AIOp.pickOp, AIOp.pickOp, AIOp.pickOp]

/-! ### AI salvo planning (C5) -/


/-- One step of the enemy-turn loop unfolded. -/
theorem aiTurn_succ (n : Nat) (ai : AIState) (b : BoardData) (rem : Int) :
    aiTurn (n + 1) ai b rem =
      (let p := pickAttackCoordinates ai
       if p.1.1 = -1 ∨ p.1.2 = -1 then ⟨[], [], p.2, b, rem⟩
       else
         let r := receiveShot b p.1.1 p.1.2
         let rem' := if r.1 = 2 then rem - 1 else rem
         let ai2 := recordShotResult p.2 p.1.1 p.1.2 (decide (r.1 ≠ 0)) (decide (r.1 = 2))
         if rem' ≤ 0 then ⟨[p.1], [r.1], ai2, r.2, rem'⟩
         else
           let t := aiTurn n ai2 r.2 rem'
           ⟨p.1 :: t.fired, r.1 :: t.results, t.ai, t.defender, t.remaining⟩) := rfl

/-- C5 counterexample: with the same Smart AI state and random stream at the
start of the turn, the two coordinates fired in one salvo differ between a
defender board that misses at `(5, 5)` and one that is hit there — the Smart
AI's follow-up queue redirects the very next shot of the same salvo. -/
theorem aiTurn_smart_reacts_mid_salvo :
    (aiTurn 2 cexAIState cexBoardA 9).fired ≠ (aiTurn 2 cexAIState cexBoardB 9).fired ∧
    (aiTurn 2 cexAIState cexBoardA 9).fired = [(5, 5), (0, 0)] ∧
    (aiTurn 2 cexAIState cexBoardB 9).fired = [(5, 5), (5, 4)] := by decide

theorem pick_easy_agree (st1 st2 : AIState)
    (h1 : st1.difficulty = .easy) (h2 : st2.difficulty = .easy)
    (ha : st1.availableShots = st2.availableShots) (hr : st1.rng = st2.rng) :
    (pickAttackCoordinates st1).1 = (pickAttackCoordinates st2).1 ∧
    (pickAttackCoordinates st1).2.difficulty = .easy ∧
    (pickAttackCoordinates st2).2.difficulty = .easy ∧
    (pickAttackCoordinates st1).2.availableShots =
      (pickAttackCoordinates st2).2.availableShots ∧
    (pickAttackCoordinates st1).2.rng = (pickAttackCoordinates st2).2.rng := by
  unfold pickAttackCoordinates
  by_cases he : st1.availableShots.isEmpty
  · rw [if_pos he, if_pos (by rw [← ha]; exact he)]
    exact ⟨rfl, h1, h2, ha, hr⟩
  · have he2 : ¬st2.availableShots.isEmpty = true := by rw [← ha]; exact he
    rw [if_neg he, if_pos h1, if_neg he2, if_pos h2, ha, hr]
    exact ⟨rfl, h1, h2, rfl, rfl⟩

/-- C5 amended: only the Easy tier chooses its salvo independently of
outcomes. For Easy difficulty, two runs of one enemy turn that start from
the same pool and random stream fire prefix-compatible coordinate lists no
matter what the defending boards contain (they can only diverge in length,
through the early defeat exit). The Smart tier violates the original claim
(see the counterexample). -/
theorem aiTurn_easy_board_independent (n : Nat) :
    ∀ (st1 st2 : AIState) (b1 b2 : BoardData) (r1 r2 : Int),
      st1.difficulty = .easy → st2.difficulty = .easy →
      st1.availableShots = st2.availableShots → st1.rng = st2.rng →
      (∃ rest, (aiTurn n st2 b2 r2).fired = (aiTurn n st1 b1 r1).fired ++ rest) ∨
      (∃ rest, (aiTurn n st1 b1 r1).fired = (aiTurn n st2 b2 r2).fired ++ rest) := by
  induction n with
  | zero =>
    intro st1 st2 b1 b2 r1 r2 _ _ _ _
    exact Or.inl ⟨[], rfl⟩
  | succ n ih =>
    intro st1 st2 b1 b2 r1 r2 h1 h2 ha hr
    obtain ⟨hcoord, hd1, hd2, ha', hr'⟩ := pick_easy_agree st1 st2 h1 h2 ha hr
    rw [aiTurn_succ, aiTurn_succ]
    dsimp only
    by_cases hsent : (pickAttackCoordinates st1).1.1 = -1 ∨ (pickAttackCoordinates st1).1.2 = -1
    · rw [if_pos hsent, if_pos (by rw [← hcoord]; exact hsent)]
      exact Or.inl ⟨[], rfl⟩
    · rw [if_neg hsent, if_neg (by rw [← hcoord]; exact hsent)]
      have hrec := fun (z : Int) (w : Int) (hh ss : Bool) =>
        recordShotResult_pools (pickAttackCoordinates st1).2 z w hh ss
      by_cases hs1 : (if (receiveShot b1 (pickAttackCoordinates st1).1.1
          (pickAttackCoordinates st1).1.2).1 = 2 then r1 - 1 else r1) ≤ 0
      · rw [if_pos hs1]
        by_cases hs2 : (if (receiveShot b2 (pickAttackCoordinates st2).1.1
            (pickAttackCoordinates st2).1.2).1 = 2 then r2 - 1 else r2) ≤ 0
        · rw [if_pos hs2]
          exact Or.inl ⟨[], by rw [hcoord]; simp⟩
        · rw [if_neg hs2]
          exact Or.inl ⟨_, congrArg₂ List.cons hcoord.symm rfl⟩
      · rw [if_neg hs1]
        by_cases hs2 : (if (receiveShot b2 (pickAttackCoordinates st2).1.1
            (pickAttackCoordinates st2).1.2).1 = 2 then r2 - 1 else r2) ≤ 0
        · rw [if_pos hs2]
          exact Or.inr ⟨_, congrArg₂ List.cons hcoord rfl⟩
        · rw [if_neg hs2]
          have hih := ih
            (recordShotResult (pickAttackCoordinates st1).2 (pickAttackCoordinates st1).1.1
              (pickAttackCoordinates st1).1.2
              (decide ((receiveShot b1 (pickAttackCoordinates st1).1.1
                (pickAttackCoordinates st1).1.2).1 ≠ 0))
              (decide ((receiveShot b1 (pickAttackCoordinates st1).1.1
                (pickAttackCoordinates st1).1.2).1 = 2)))
            (recordShotResult (pickAttackCoordinates st2).2 (pickAttackCoordinates st2).1.1
              (pickAttackCoordinates st2).1.2
              (decide ((receiveShot b2 (pickAttackCoordinates st2).1.1
                (pickAttackCoordinates st2).1.2).1 ≠ 0))
              (decide ((receiveShot b2 (pickAttackCoordinates st2).1.1
                (pickAttackCoordinates st2).1.2).1 = 2)))
            (receiveShot b1 (pickAttackCoordinates st1).1.1
              (pickAttackCoordinates st1).1.2).2
            (receiveShot b2 (pickAttackCoordinates st2).1.1
              (pickAttackCoordinates st2).1.2).2
            (if (receiveShot b1 (pickAttackCoordinates st1).1.1
              (pickAttackCoordinates st1).1.2).1 = 2 then r1 - 1 else r1)
            (if (receiveShot b2 (pickAttackCoordinates st2).1.1
              (pickAttackCoordinates st2).1.2).1 = 2 then r2 - 1 else r2)
            (by rw [(recordShotResult_pools _ _ _ _ _).2.2.1]; exact hd1)
            (by rw [(recordShotResult_pools _ _ _ _ _).2.2.1]; exact hd2)
            (by rw [(recordShotResult_pools _ _ _ _ _).1,
                (recordShotResult_pools _ _ _ _ _).1]; exact ha')
            (by rw [(recordShotResult_pools _ _ _ _ _).2.2.2.1,
                (recordShotResult_pools _ _ _ _ _).2.2.2.1]; exact hr')
          rcases hih with ⟨rest, hrest⟩ | ⟨rest, hrest⟩
          · refine Or.inl ⟨rest, ?_⟩
            show (pickAttackCoordinates st2).1 :: _ =
              ((pickAttackCoordinates st1).1 :: _) ++ rest
            rw [List.cons_append]
            exact congrArg₂ List.cons hcoord.symm hrest
          · refine Or.inr ⟨rest, ?_⟩
            show (pickAttackCoordinates st1).1 :: _ =
              ((pickAttackCoordinates st2).1 :: _) ++ rest
            rw [List.cons_append]
            exact congrArg₂ List.cons hcoord hrest

/-- Witness for C5's amended theorem: one Easy turn from a one-cell pool on
two different boards. -/
theorem aiTurn_easy_board_independent_witness :
    (∃ rest, (aiTurn 1
        { difficulty := .easy, opponentBoard := [], lastHit := (-1, -1), hunting := false,
          availableShots := [(0, 0)], targetQueue := [], parityShots := [],
          boardSize := 10, rng := [0] } cexBoardB 9).fired =
      (aiTurn 1
        { difficulty := .easy, opponentBoard := [], lastHit := (-1, -1), hunting := false,
          availableShots := [(0, 0)], targetQueue := [], parityShots := [],
          boardSize := 10, rng := [0] } cexBoardA 9).fired ++ rest) ∨
    (∃ rest, (aiTurn 1
        { difficulty := .easy, opponentBoard := [], lastHit := (-1, -1), hunting := false,
          availableShots := [(0, 0)], targetQueue := [], parityShots := [],
          boardSize := 10, rng := [0] } cexBoardA 9).fired =
      (aiTurn 1
        { difficulty := .easy, opponentBoard := [], lastHit := (-1, -1), hunting := false,
          availableShots := [(0, 0)], targetQueue := [], parityShots := [],
          boardSize := 10, rng := [0] } cexBoardB 9).fired ++ rest) :=
  aiTurn_easy_board_independent 1 _ _ cexBoardA cexBoardB 9 9
    (by decide) (by decide) (by decide) (by decide)

/-! ### Turn-engine early stop (C4) -/

theorem fireSalvo_cons (st : SalvoState) (shot : Int × Int) (rest : List (Int × Int)) :
    fireSalvo st (shot :: rest) =
      (let r := fireStep st shot
       if r.1.remaining ≤ 0 then (r.1, [(shot, r.2)])
       else
         let t := fireSalvo r.1 rest
         (t.1, (shot, r.2) :: t.2)) := rfl

theorem fireStep_remaining (st : SalvoState) (shot : Int × Int) :
    (fireStep st shot).1.remaining =
      (if (fireStep st shot).2 = 2 then st.remaining - 1 else st.remaining) := by
  unfold fireStep
  dsimp only
  split_ifs <;> simp_all

theorem fireSalvo_main (queued : List (Int × Int)) :
    ∀ st : SalvoState,
      (∃ rest, queued = (fireSalvo st queued).2.map Prod.fst ++ rest ∧
        (0 < (fireSalvo st queued).1.remaining → rest = [])) ∧
      runAllShots st ((fireSalvo st queued).2.map Prod.fst) = (fireSalvo st queued).1 ∧
      (0 < st.remaining → ∀ p q, (fireSalvo st queued).2.map Prod.fst = p ++ q → q ≠ [] →
        0 < (runAllShots st p).remaining) ∧
      (fireSalvo st queued).1.remaining =
        st.remaining - ((fireSalvo st queued).2.filter (fun r => r.2 = 2)).length := by
  induction queued with
  | nil =>
    intro st
    refine ⟨⟨[], rfl, fun _ => rfl⟩, rfl, ?_, by simp [fireSalvo]⟩
    intro _ p q hpq hq
    exact absurd (List.append_eq_nil.mp hpq.symm).2 hq
  | cons shot rest ih =>
    intro st
    rw [fireSalvo_cons]
    dsimp only
    by_cases hstop : (fireStep st shot).1.remaining ≤ 0
    · rw [if_pos hstop]
      refine ⟨⟨rest, rfl, fun hpos =>
        absurd (show 0 < (fireStep st shot).1.remaining from hpos) (by omega)⟩, rfl, ?_, ?_⟩
      · intro hpos p q hpq hq
        cases p with
        | nil => exact hpos
        | cons a p' =>
          rw [List.cons_append] at hpq
          injection hpq with h1 h2
          exact absurd (List.append_eq_nil.mp h2.symm).2 hq
      · rw [List.filter_cons]
        have hrem := fireStep_remaining st shot
        by_cases h2 : (fireStep st shot).2 = 2
        · rw [if_pos (by simpa using h2)]
          rw [if_pos h2] at hrem
          simp [hrem]
        · rw [if_neg (by simpa using h2)]
          rw [if_neg h2] at hrem
          simp [hrem]
    · rw [if_neg hstop]
      obtain ⟨⟨r0, hr0, hr0'⟩, hrun, hpre, hcount⟩ := ih (fireStep st shot).1
      refine ⟨⟨r0, ?_, hr0'⟩, hrun, ?_, ?_⟩
      · rw [List.map_cons, List.cons_append, ← hr0]
      · intro hpos p q hpq hq
        cases p with
        | nil => exact hpos
        | cons a p' =>
          rw [List.map_cons, List.cons_append] at hpq
          injection hpq with h1 h2
          subst h1
          exact hpre (by omega) p' q h2 hq
      · rw [List.filter_cons]
        have hrem := fireStep_remaining st shot
        by_cases h2 : (fireStep st shot).2 = 2
        · rw [if_pos (by simpa using h2)]
          rw [if_pos h2] at hrem
          rw [List.length_cons, hcount, hrem]
          push_cast
          ring
        · rw [if_neg (by simpa using h2)]
          rw [if_neg h2] at hrem
          rw [hcount, hrem]

theorem aiTurn_stop (m : Nat) :
    ∀ (n : Nat) (ai : AIState) (b : BoardData) (rem : Int),
      m ≤ n → 0 < rem → (aiTurn m ai b rem).remaining ≤ 0 →
      aiTurn n ai b rem = aiTurn m ai b rem := by
  induction m with
  | zero =>
    intro n ai b rem _ hpos hstop
    exact absurd (show rem ≤ 0 from hstop) (by omega)
  | succ m ih =>
    intro n ai b rem hmn hpos hstop
    obtain ⟨n', rfl⟩ : ∃ n', n = n' + 1 := ⟨n - 1, by omega⟩
    rw [aiTurn_succ, aiTurn_succ]
    dsimp only
    by_cases hsent : (pickAttackCoordinates ai).1.1 = -1 ∨ (pickAttackCoordinates ai).1.2 = -1
    · rw [if_pos hsent, if_pos hsent]
    · rw [if_neg hsent, if_neg hsent]
      by_cases hrs : (if (receiveShot b (pickAttackCoordinates ai).1.1
          (pickAttackCoordinates ai).1.2).1 = 2 then rem - 1 else rem) ≤ 0
      · rw [if_pos hrs, if_pos hrs]
      · rw [if_neg hrs, if_neg hrs]
        have hstop' : (aiTurn m (recordShotResult (pickAttackCoordinates ai).2
            (pickAttackCoordinates ai).1.1 (pickAttackCoordinates ai).1.2
            (decide ((receiveShot b (pickAttackCoordinates ai).1.1
              (pickAttackCoordinates ai).1.2).1 ≠ 0))
            (decide ((receiveShot b (pickAttackCoordinates ai).1.1
              (pickAttackCoordinates ai).1.2).1 = 2)))
            (receiveShot b (pickAttackCoordinates ai).1.1 (pickAttackCoordinates ai).1.2).2
            (if (receiveShot b (pickAttackCoordinates ai).1.1
              (pickAttackCoordinates ai).1.2).1 = 2 then rem - 1 else rem)).remaining ≤ 0 := by
          rw [aiTurn_succ] at hstop
          dsimp only at hstop
          rw [if_neg hsent, if_neg hrs] at hstop
          exact hstop
        rw [ih n' _ _ _ (by omega) (by omega) hstop']

/-- C4: in the firing phase, shots queued after the one that brings the
defender's remaining-ships counter to zero are never resolved and cause no
state change — the resolved trace is a prefix of the queue, the final state
equals running only that prefix, the counter stays positive after every
proper prefix (the zero check happens after each individual shot), the
counter drops exactly by the number of Sunk results, and the loop only runs
the queue to its end when the counter stays positive. The AI-turn loop stops
the same way: once a budget `m` ends with the counter at zero, any larger
budget `n` produces the identical turn. -/
theorem firing_stops_at_zero (st : SalvoState) (queued : List (Int × Int)) :
    ((∃ rest, queued = (fireSalvo st queued).2.map Prod.fst ++ rest ∧
        (0 < (fireSalvo st queued).1.remaining → rest = [])) ∧
      runAllShots st ((fireSalvo st queued).2.map Prod.fst) = (fireSalvo st queued).1 ∧
      (0 < st.remaining → ∀ p q, (fireSalvo st queued).2.map Prod.fst = p ++ q → q ≠ [] →
        0 < (runAllShots st p).remaining) ∧
      (fireSalvo st queued).1.remaining =
        st.remaining - ((fireSalvo st queued).2.filter (fun r => r.2 = 2)).length) ∧
    (∀ (m n : Nat) (ai : AIState) (b : BoardData) (rem : Int),
      m ≤ n → 0 < rem → (aiTurn m ai b rem).remaining ≤ 0 →
      aiTurn n ai b rem = aiTurn m ai b rem) :=
  ⟨fireSalvo_main queued st, fun m n ai b rem h1 h2 h3 => aiTurn_stop m n ai b rem h1 h2 h3⟩

/-- Witness for C4: a salvo of three queued shots against a board whose only
ship is the single cell `(5, 5)`; the first shot sinks it and the remaining
two queued shots are never resolved; likewise an AI turn with budget 3 stops
after its first, sinking, shot exactly as with budget 1. -/
theorem firing_stops_at_zero_witness :
    ((fireSalvo
        { defender := addShip (initBoard 10) 1 55 1 'A',
          fog := List.replicate 10 (List.replicate 10 ' '), remaining := 1 }
        [(5, 5), (0, 0), (1, 1)]).2.map Prod.fst = [(5, 5)]) ∧
    aiTurn 3
      { difficulty := .easy, opponentBoard := List.replicate 10 (List.replicate 10 '?'),
        lastHit := (-1, -1), hunting := false, availableShots := [(5, 5), (0, 0)],
        targetQueue := [], parityShots := [], boardSize := 10, rng := [0, 0] }
      (addShip (initBoard 10) 1 55 1 'A') 1 =
    aiTurn 1
      { difficulty := .easy, opponentBoard := List.replicate 10 (List.replicate 10 '?'),
        lastHit := (-1, -1), hunting := false, availableShots := [(5, 5), (0, 0)],
        targetQueue := [], parityShots := [], boardSize := 10, rng := [0, 0] }
      (addShip (initBoard 10) 1 55 1 'A') 1 := by
  constructor
  · obtain ⟨⟨r0, hr0, hr0'⟩, _, _, hcount⟩ := (firing_stops_at_zero
      { defender := addShip (initBoard 10) 1 55 1 'A',
        fog := List.replicate 10 (List.replicate 10 ' '), remaining := 1 }
      [(5, 5), (0, 0), (1, 1)]).1
    decide
  · exact (firing_stops_at_zero
      { defender := initBoard 10, fog := [], remaining := 1 } []).2
      1 3
      { difficulty := .easy, opponentBoard := List.replicate 10 (List.replicate 10 '?'),
        lastHit := (-1, -1), hunting := false, availableShots := [(5, 5), (0, 0)],
        targetQueue := [], parityShots := [], boardSize := 10, rng := [0, 0] }
      (addShip (initBoard 10) 1 55 1 'A') 1
      (by omega) (by decide) (by decide)

/-! ### Board invariant (C3, C9) -/


theorem symCount_congr (g g' : Grid) (s : ActiveShip)
    (h : ∀ p ∈ shipCells s, gridGet g' p.1 p.2 = gridGet g p.1 p.2) :
    symCount g' s = symCount g s := by
  unfold symCount
  have he : (shipCells s).filter (fun p => gridGet g' p.1 p.2 = s.symbol) =
      (shipCells s).filter (fun p => gridGet g p.1 p.2 = s.symbol) := by
    apply List.filter_congr
    intro p hp
    rw [h p hp]
  rw [he]

theorem symCount_nonneg (g : Grid) (s : ActiveShip) : 0 ≤ symCount g s := by
  unfold symCount
  exact_mod_cast Nat.zero_le _

theorem symCount_le_length (g : Grid) (s : ActiveShip) :
    symCount g s ≤ (s.length.toNat : Int) := by
  unfold symCount
  have h1 : ((shipCells s).filter (fun p => gridGet g p.1 p.2 = s.symbol)).length ≤
      (shipCells s).length := List.length_filter_le _ _
  rw [shipCells_length] at h1
  exact_mod_cast h1

theorem symCount_pos_of_cell (g : Grid) (s : ActiveShip) (p : Int × Int)
    (hp : p ∈ shipCells s) (hcell : gridGet g p.1 p.2 = s.symbol) :
    1 ≤ symCount g s := by
  unfold symCount
  have hmem : p ∈ (shipCells s).filter (fun q => gridGet g q.1 q.2 = s.symbol) :=
    List.mem_filter.mpr ⟨hp, by simp [hcell]⟩
  have hlen : 0 < ((shipCells s).filter (fun q => gridGet g q.1 q.2 = s.symbol)).length :=
    List.length_pos.mpr (List.ne_nil_of_mem hmem)
  exact_mod_cast hlen

theorem symCount_eq_zero (g : Grid) (s : ActiveShip)
    (h : ∀ p ∈ shipCells s, ¬(gridGet g p.1 p.2 = s.symbol)) : symCount g s = 0 := by
  unfold symCount
  have he : (shipCells s).filter (fun p => gridGet g p.1 p.2 = s.symbol) = [] :=
    List.filter_eq_nil_iff.mpr (by intro p hp; simpa using h p hp)
  rw [he]
  rfl

theorem symCount_full (g : Grid) (s : ActiveShip)
    (h : ∀ p ∈ shipCells s, gridGet g p.1 p.2 = s.symbol) :
    symCount g s = (s.length.toNat : Int) := by
  unfold symCount
  have he : (shipCells s).filter (fun p => gridGet g p.1 p.2 = s.symbol) = shipCells s :=
    List.filter_eq_self.mpr (by intro p hp; simpa using h p hp)
  rw [he, shipCells_length]

theorem filter_length_drop_one (L : List (Int × Int)) (p q : (Int × Int) → Bool)
    (a : Int × Int) (ha : a ∈ L) (hnd : L.Nodup)
    (hpa : p a = true) (hqa : q a = false)
    (hagree : ∀ u ∈ L, u ≠ a → q u = p u) :
    (L.filter q).length + 1 = (L.filter p).length := by
  obtain ⟨l1, l2, rfl⟩ := List.append_of_mem ha
  rw [List.nodup_append] at hnd
  have ha1 : a ∉ l1 := fun hmem => hnd.2.2 hmem (List.mem_cons_self a l2)
  have ha2 : a ∉ l2 := (List.nodup_cons.mp hnd.2.1).1
  have h1 : l1.filter q = l1.filter p := by
    apply List.filter_congr
    intro u hu
    exact hagree u (List.mem_append_left _ hu) (fun he => ha1 (he ▸ hu))
  have h2 : l2.filter q = l2.filter p := by
    apply List.filter_congr
    intro u hu
    exact hagree u (List.mem_append_right _ (List.mem_cons_of_mem _ hu)) (fun he => ha2 (he ▸ hu))
  rw [List.filter_append, List.filter_append, List.filter_cons, List.filter_cons,
    hpa, hqa, h1, h2, if_pos rfl, if_neg (by decide)]
  rw [List.length_append, List.length_append, List.length_cons]
  omega

theorem mem_middle (pre post : List ActiveShip) (s t : ActiveShip)
    (h : t ∈ pre ++ s :: post) : t ∈ pre ∨ t = s ∨ t ∈ post := by
  rcases List.mem_append.mp h with h1 | h1
  · exact Or.inl h1
  · rcases List.mem_cons.mp h1 with h2 | h2
    · exact Or.inr (Or.inl h2)
    · exact Or.inr (Or.inr h2)

theorem disj_middle (pre post : List ActiveShip) (s : ActiveShip)
    (h : (pre ++ s :: post).Pairwise (fun u t => ∀ p ∈ shipCells u, p ∉ shipCells t)) :
    ∀ t, t ∈ pre ∨ t ∈ post → ∀ p, p ∈ shipCells s → p ∉ shipCells t := by
  rw [List.pairwise_append] at h
  obtain ⟨h1, h2, h3⟩ := h
  rw [List.pairwise_cons] at h2
  intro t ht p hps hpt
  rcases ht with ht | ht
  · exact h3 t ht s (List.mem_cons_self s post) p hpt hps
  · exact h2.1 t ht p hps hpt

theorem pairwise_cells_middle (pre post : List ActiveShip) (s s' : ActiveShip)
    (hcells : shipCells s' = shipCells s)
    (h : (pre ++ s :: post).Pairwise (fun u t => ∀ p ∈ shipCells u, p ∉ shipCells t)) :
    (pre ++ s' :: post).Pairwise (fun u t => ∀ p ∈ shipCells u, p ∉ shipCells t) := by
  rw [List.pairwise_append] at h ⊢
  obtain ⟨h1, h2, h3⟩ := h
  rw [List.pairwise_cons] at h2 ⊢
  refine ⟨h1, ⟨?_, h2.2⟩, ?_⟩
  · intro t ht p hp
    rw [hcells] at hp
    exact h2.1 t ht p hp
  · intro u hu t ht
    rcases List.mem_cons.mp ht with ht2 | ht2
    · subst ht2
      intro p hp hp2
      rw [hcells] at hp2
      exact h3 u hu s (List.mem_cons_self s post) p hp hp2
    · exact h3 u hu t (List.mem_cons_of_mem _ ht2)

/-- Writing any character on a cell that lies on no registered ship preserves
the board invariant (the miss branch and the two no-ship hit branches of
`receiveShot`). -/
theorem inv_update_nonship (b : BoardData) (h : Inv b) (y x : Int) (ch : Char)
    (hno : ∀ t ∈ b.myShips, (y, x) ∉ shipCells t)
    (b' : BoardData) (hba : b'.boardArray = gridSet b.boardArray y x ch)
    (hms : b'.myShips = b.myShips) (hbs : b'.boardSize = b.boardSize) :
    Inv b' := by
  have hsame : ∀ t ∈ b.myShips, ∀ p ∈ shipCells t,
      gridGet (gridSet b.boardArray y x ch) p.1 p.2 = gridGet b.boardArray p.1 p.2 := by
    intro t ht p hp
    refine gridGet_gridSet_ne _ _ _ _ _ _ ?_
    rintro ⟨h1, h2⟩
    have hpe : p = (y, x) := by rcases p with ⟨p1, p2⟩; simp_all
    exact hno t ht (hpe ▸ hp)
  refine ⟨?_, ?_, ?_, ?_, ?_, ?_, ?_, ?_⟩
  · rw [hbs]; exact h.size_pos
  · rw [hba, hbs]; exact gridShape_set _ _ _ _ _ h.shape
  · rw [hms, hbs]; exact h.geom
  · rw [hms]; exact h.symOK
  · rw [hms]; exact h.disj
  · rw [hms, hba]
    intro t ht
    rw [symCount_congr b.boardArray _ t (hsame t ht)]
    exact h.count t ht
  · rw [hms, hba]
    intro t ht p hp
    rw [hsame t ht p hp]
    exact h.cellstate t ht p hp
  · rw [hms]; exact h.sunkOK

/-- Replacing the scanned ship by an updated copy with the same cells while
rewriting the grid compatibly preserves the invariant (shared core of the hit
and sunk branches of `receiveShot`). -/
theorem inv_update_middle (b : BoardData) (h : Inv b) (pre post : List ActiveShip)
    (s s' : ActiveShip) (g' : Grid)
    (hdecomp : b.myShips = pre ++ s :: post)
    (hcells : shipCells s' = shipCells s)
    (hsym2 : s'.symbol = s.symbol)
    (hlen2 : s'.length = s.length)
    (hsh2 : gridShape g' b.boardSize)
    (hsame : ∀ t, t ∈ pre ∨ t ∈ post → ∀ p ∈ shipCells t,
      gridGet g' p.1 p.2 = gridGet b.boardArray p.1 p.2)
    (hcnt2 : s'.hitCount = s'.length - symCount g' s')
    (hcs2 : ∀ p ∈ shipCells s', gridGet g' p.1 p.2 = s'.symbol ∨
      gridGet g' p.1 p.2 = 'x' ∨ gridGet g' p.1 p.2 = 's')
    (hsk2 : s'.isSunk = decide (s'.hitCount = s'.length))
    (b' : BoardData)
    (hba : b'.boardArray = g')
    (hms : b'.myShips = pre ++ s' :: post)
    (hbs : b'.boardSize = b.boardSize) :
    Inv b' := by
  have hsmem : s ∈ b.myShips := by rw [hdecomp]; simp
  have hside : ∀ t, t ∈ pre ∨ t ∈ post → t ∈ b.myShips := by
    intro t ht
    rw [hdecomp]
    rcases ht with ht | ht
    · exact List.mem_append_left _ ht
    · exact List.mem_append_right _ (List.mem_cons_of_mem _ ht)
  refine ⟨?_, ?_, ?_, ?_, ?_, ?_, ?_, ?_⟩
  · rw [hbs]; exact h.size_pos
  · rw [hba, hbs]; exact hsh2
  · rw [hms, hbs]
    intro t ht
    rcases mem_middle pre post s' t ht with ht2 | ht2 | ht2
    · exact h.geom t (hside t (Or.inl ht2))
    · subst ht2
      rw [hlen2]
      refine ⟨(h.geom s hsmem).1, ?_⟩
      intro p hp
      rw [hcells] at hp
      exact (h.geom s hsmem).2 p hp
    · exact h.geom t (hside t (Or.inr ht2))
  · rw [hms]
    intro t ht
    rcases mem_middle pre post s' t ht with ht2 | ht2 | ht2
    · exact h.symOK t (hside t (Or.inl ht2))
    · subst ht2
      rw [hsym2]
      exact h.symOK s hsmem
    · exact h.symOK t (hside t (Or.inr ht2))
  · rw [hms]
    refine pairwise_cells_middle pre post s s' hcells ?_
    rw [← hdecomp]
    exact h.disj
  · rw [hms, hba]
    intro t ht
    rcases mem_middle pre post s' t ht with ht2 | ht2 | ht2
    · rw [symCount_congr b.boardArray g' t (hsame t (Or.inl ht2))]
      exact h.count t (hside t (Or.inl ht2))
    · subst ht2
      exact hcnt2
    · rw [symCount_congr b.boardArray g' t (hsame t (Or.inr ht2))]
      exact h.count t (hside t (Or.inr ht2))
  · rw [hms, hba]
    intro t ht p hp
    rcases mem_middle pre post s' t ht with ht2 | ht2 | ht2
    · rw [hsame t (Or.inl ht2) p hp]
      exact h.cellstate t (hside t (Or.inl ht2)) p hp
    · subst ht2
      exact hcs2 p hp
    · rw [hsame t (Or.inr ht2) p hp]
      exact h.cellstate t (hside t (Or.inr ht2)) p hp
  · rw [hms]
    intro t ht
    rcases mem_middle pre post s' t ht with ht2 | ht2 | ht2
    · exact h.sunkOK t (hside t (Or.inl ht2))
    · subst ht2
      exact hsk2
    · exact h.sunkOK t (hside t (Or.inr ht2))

/-- `receiveShot` preserves the board invariant. -/
theorem receiveShot_inv (b : BoardData) (x y : Int) (h : Inv b) :
    Inv (receiveShot b x y).2 := by
  by_cases hb : 0 ≤ x ∧ x < b.boardSize ∧ 0 ≤ y ∧ y < b.boardSize
  swap
  · have hred : receiveShot b x y = (0, b) := by
      unfold receiveShot
      rw [if_pos hb]
    rw [hred]
    exact h
  by_cases hres : gridGet b.boardArray y x = 'x' ∨ gridGet b.boardArray y x = 'o' ∨
      gridGet b.boardArray y x = 's'
  · have hred : receiveShot b x y = (0, b) := by
      unfold receiveShot
      rw [if_neg (not_not_intro hb)]
      dsimp only
      rw [if_pos hres]
    rw [hred]
    exact h
  by_cases hw : gridGet b.boardArray y x = 'w'
  · have hred : receiveShot b x y =
        (0, { b with boardArray := gridSet b.boardArray y x 'o', missCount := b.missCount + 1 }) := by
      unfold receiveShot
      rw [if_neg (not_not_intro hb)]
      dsimp only
      rw [if_neg hres, if_pos hw]
    rw [hred]
    refine inv_update_nonship b h y x 'o' ?_ _ rfl rfl rfl
    intro t ht hmem
    rcases h.cellstate t ht (y, x) hmem with hc | hc | hc
    · have hc' : gridGet b.boardArray y x = t.symbol := hc
      have hts : t.symbol = 'w' := hc'.symm.trans hw
      have h2 := (h.symOK t ht).2
      rw [hts] at h2
      exact absurd h2 (by decide)
    · exact hres (Or.inl hc)
    · exact hres (Or.inr (Or.inr hc))
  by_cases hup : 'A' ≤ gridGet b.boardArray y x ∧ gridGet b.boardArray y x ≤ 'Z'
  swap
  · have hred : receiveShot b x y = (1, { b with boardArray := gridSet b.boardArray y x 'x' }) := by
      unfold receiveShot
      rw [if_neg (not_not_intro hb)]
      dsimp only
      rw [if_neg hres, if_neg hw, if_neg hup]
    rw [hred]
    refine inv_update_nonship b h y x 'x' ?_ _ rfl rfl rfl
    intro t ht hmem
    rcases h.cellstate t ht (y, x) hmem with hc | hc | hc
    · have hc' : gridGet b.boardArray y x = t.symbol := hc
      refine hup ?_
      rw [hc']
      exact h.symOK t ht
    · exact hres (Or.inl hc)
    · exact hres (Or.inr (Or.inr hc))
  · cases hscan : scanShips (gridGet b.boardArray y x) x y b.myShips with
    | none =>
      have hred : receiveShot b x y =
          (1, { b with boardArray := gridSet b.boardArray y x 'x' }) := by
        unfold receiveShot
        rw [if_neg (not_not_intro hb)]
        dsimp only
        rw [if_neg hres, if_neg hw, if_pos hup, hscan]
      rw [hred]
      refine inv_update_nonship b h y x 'x' ?_ _ rfl rfl rfl
      intro t ht hmem
      have hns := scanShips_none_spec _ _ _ _ hscan t ht
      rcases h.cellstate t ht (y, x) hmem with hc | hc | hc
      · have hc' : gridGet b.boardArray y x = t.symbol := hc
        have hsu : t.isSunk = false := by
          cases hss : t.isSunk
          · rfl
          · exfalso
            have hsOK := h.sunkOK t ht
            rw [hss] at hsOK
            have hhc : t.hitCount = t.length := of_decide_eq_true hsOK.symm
            have hcnt := h.count t ht
            have hpos := symCount_pos_of_cell b.boardArray t (y, x) hmem hc'
            omega
        exact hns ⟨by simp [hsu], hc'.symm, (shipHitTest_iff_mem t x y).mpr hmem⟩
      · exact hres (Or.inl hc)
      · exact hres (Or.inr (Or.inr hc))
    | some trip =>
      obtain ⟨pre, s, post⟩ := trip
      obtain ⟨hdecomp, hmatch, hfirst⟩ := scanShips_some_spec _ _ _ _ _ _ _ hscan
      obtain ⟨hnsunk, hsymeq, hhit⟩ := hmatch
      have hcov : (y, x) ∈ shipCells s := (shipHitTest_iff_mem s x y).mp hhit
      have hcell : gridGet b.boardArray y x = s.symbol := hsymeq.symm
      have hsmem : s ∈ b.myShips := by rw [hdecomp]; simp
      have hdisj : ∀ t, t ∈ pre ∨ t ∈ post → ∀ p, p ∈ shipCells s → p ∉ shipCells t := by
        have hd := h.disj
        rw [hdecomp] at hd
        exact disj_middle pre post s hd
      have hcount := h.count s hsmem
      have hlen1 : 1 ≤ s.length := (h.geom s hsmem).1
      have hgeo : ∀ p ∈ shipCells s, inB b.boardSize p := (h.geom s hsmem).2
      have hsymA : 'A' ≤ s.symbol := (h.symOK s hsmem).1
      have hsymZ : s.symbol ≤ 'Z' := (h.symOK s hsmem).2
      have hpos : 1 ≤ symCount b.boardArray s := symCount_pos_of_cell _ _ (y, x) hcov hcell
      have hle : symCount b.boardArray s ≤ (s.length.toNat : Int) := symCount_le_length _ _
      have h1le : s.hitCount + 1 ≤ s.length := by omega
      have hsfalse : s.isSunk = false := by
        cases hss : s.isSunk
        · rfl
        · exact absurd hss hnsunk
      have hnotres : ¬(s.symbol = 'x' ∨ s.symbol = 'o' ∨ s.symbol = 's') := by
        rintro (hh | hh | hh) <;>
          · rw [hh] at hsymZ
            exact absurd hsymZ (by decide)
      have hnotwater : ¬(s.symbol = 'w') := by
        intro hh
        rw [hh] at hsymZ
        exact absurd hsymZ (by decide)
      have hscan2 : scanShips s.symbol x y b.myShips = some (pre, s, post) := by
        rw [← hcell]
        exact hscan
      have hred : receiveShot b x y =
          (let s1 : ActiveShip := { s with hitCount := s.hitCount + 1 }
           if s1.length ≤ s1.hitCount then
            let s2 : ActiveShip := { s1 with isSunk := true }
            (2, { b with
                  myShips := pre ++ s2 :: post,
                  shipStatus := mapSet b.shipStatus s.symbol
                    { mapGet b.shipStatus s.symbol with isSunk := true, hitCount := s1.hitCount },
                  boardArray := markSunkCells b.boardArray b.boardSize s2 })
          else
            (1, { b with
                  myShips := pre ++ s1 :: post,
                  shipStatus := mapSet b.shipStatus s.symbol
                    { mapGet b.shipStatus s.symbol with hitCount := s1.hitCount },
                  boardArray := gridSet b.boardArray y x 'x' })) := by
        unfold receiveShot
        rw [if_neg (not_not_intro hb)]
        simp only [hcell]
        rw [if_neg hnotres, if_neg hnotwater, if_pos ⟨hsymA, hsymZ⟩, hscan2]
      rw [hred]
      by_cases hsunk : ({ s with hitCount := s.hitCount + 1 } : ActiveShip).length ≤
          ({ s with hitCount := s.hitCount + 1 } : ActiveShip).hitCount
      · have hsunkN : s.length ≤ s.hitCount + 1 := hsunk
        have heq : s.hitCount + 1 = s.length := by omega
        have hall : ∀ p ∈ shipCells s,
            gridGet (markList b.boardArray b.boardSize (shipCells s)) p.1 p.2 = 's' := by
          intro p hp
          exact gridGet_markList_mem _ _ _ p.1 p.2 h.shape hp (hgeo p hp)
        have hzero : symCount (markList b.boardArray b.boardSize (shipCells s)) s = 0 := by
          refine symCount_eq_zero _ _ ?_
          intro p hp hcp
          have hss : ('s' : Char) = s.symbol := (hall p hp).symm.trans hcp
          rw [← hss] at hsymZ
          exact absurd hsymZ (by decide)
        simp only [if_pos hsunk]
        refine inv_update_middle b h pre post s
          { s with hitCount := s.hitCount + 1, isSunk := true }
          (markList b.boardArray b.boardSize (shipCells s))
          hdecomp rfl rfl rfl (markList_shape _ _ _ h.shape) ?_ ?_ ?_ ?_ _ rfl rfl rfl
        · intro t ht p hp
          refine gridGet_markList_notmem _ _ _ _ _ ?_
          intro hps
          exact hdisj t ht (p.1, p.2) hps hp
        · show s.hitCount + 1 = s.length - symCount (markList b.boardArray b.boardSize (shipCells s)) s
          rw [hzero]
          omega
        · intro p hp
          exact Or.inr (Or.inr (hall p hp))
        · show true = decide (s.hitCount + 1 = s.length)
          exact (decide_eq_true heq).symm
      · have hsunkN : ¬(s.length ≤ s.hitCount + 1) := hsunk
        have hne : ¬(s.hitCount + 1 = s.length) := by omega
        have hxx : gridGet (gridSet b.boardArray y x 'x') y x = 'x' :=
          gridGet_gridSet_self _ b.boardSize _ _ _ h.shape hb.2.2.1 hb.2.2.2 hb.1 hb.2.1
        have hagree : ∀ u ∈ shipCells s, u ≠ (y, x) →
            decide (gridGet (gridSet b.boardArray y x 'x') u.1 u.2 = s.symbol) =
              decide (gridGet b.boardArray u.1 u.2 = s.symbol) := by
          intro u hu hne2
          have hg : gridGet (gridSet b.boardArray y x 'x') u.1 u.2 =
              gridGet b.boardArray u.1 u.2 := by
            refine gridGet_gridSet_ne _ _ _ _ _ _ ?_
            rintro ⟨hh1, hh2⟩
            exact hne2 (Prod.ext_iff.mpr ⟨hh1, hh2⟩)
          rw [hg]
        have hpa : decide (gridGet b.boardArray y x = s.symbol) = true := decide_eq_true hcell
        have hqa : decide (gridGet (gridSet b.boardArray y x 'x') y x = s.symbol) = false := by
          rw [hxx]
          refine decide_eq_false ?_
          intro hcc
          rw [← hcc] at hsymZ
          exact absurd hsymZ (by decide)
        have hdrop := filter_length_drop_one (shipCells s)
          (fun p => decide (gridGet b.boardArray p.1 p.2 = s.symbol))
          (fun p => decide (gridGet (gridSet b.boardArray y x 'x') p.1 p.2 = s.symbol))
          (y, x) hcov (shipCells_nodup s) hpa hqa hagree
        have hdropZ : symCount (gridSet b.boardArray y x 'x') s + 1 =
            symCount b.boardArray s := by
          unfold symCount
          exact_mod_cast hdrop
        simp only [if_neg hsunk]
        refine inv_update_middle b h pre post s
          { s with hitCount := s.hitCount + 1 }
          (gridSet b.boardArray y x 'x')
          hdecomp rfl rfl rfl (gridShape_set _ _ _ _ _ h.shape) ?_ ?_ ?_ ?_ _ rfl rfl rfl
        · intro t ht p hp
          refine gridGet_gridSet_ne _ _ _ _ _ _ ?_
          rintro ⟨hh1, hh2⟩
          have hpq : p = (y, x) := Prod.ext_iff.mpr ⟨hh1, hh2⟩
          exact hdisj t ht (y, x) hcov (hpq ▸ hp)
        · show s.hitCount + 1 = s.length - symCount (gridSet b.boardArray y x 'x') s
          omega
        · intro p hp
          by_cases hpe : p = (y, x)
          · subst hpe
            exact Or.inr (Or.inl hxx)
          · have hg : gridGet (gridSet b.boardArray y x 'x') p.1 p.2 =
                gridGet b.boardArray p.1 p.2 := by
              refine gridGet_gridSet_ne _ _ _ _ _ _ ?_
              rintro ⟨hh1, hh2⟩
              exact hpe (Prod.ext_iff.mpr ⟨hh1, hh2⟩)
            rw [hg]
            exact h.cellstate s hsmem p hp
        · show s.isSunk = decide (s.hitCount + 1 = s.length)
          rw [decide_eq_false hne]
          exact hsfalse

/-- Painting water cells that lie on no registered ship preserves the
invariant (`placeShip`'s successful paint). -/
theorem inv_paint_water (b : BoardData) (h : Inv b) (L : List (Int × Int)) (ch : Char)
    (hw : ∀ p ∈ L, gridGet b.boardArray p.1 p.2 = 'w')
    (b' : BoardData)
    (hba : b'.boardArray = paintCells b.boardArray L ch)
    (hms : b'.myShips = b.myShips)
    (hbs : b'.boardSize = b.boardSize) :
    Inv b' := by
  have hnot : ∀ t ∈ b.myShips, ∀ p ∈ shipCells t, p ∉ L := by
    intro t ht p hp hpL
    rcases h.cellstate t ht p hp with hc | hc | hc
    · have hwp := hw p hpL
      rw [hwp] at hc
      have h2 := (h.symOK t ht).2
      rw [← hc] at h2
      exact absurd h2 (by decide)
    · have hwp := hw p hpL
      rw [hwp] at hc
      exact absurd hc (by decide)
    · have hwp := hw p hpL
      rw [hwp] at hc
      exact absurd hc (by decide)
  have hsame : ∀ t ∈ b.myShips, ∀ p ∈ shipCells t,
      gridGet (paintCells b.boardArray L ch) p.1 p.2 = gridGet b.boardArray p.1 p.2 := by
    intro t ht p hp
    refine gridGet_paintCells_notmem _ _ _ _ _ ?_
    intro hmem
    exact hnot t ht p hp hmem
  refine ⟨?_, ?_, ?_, ?_, ?_, ?_, ?_, ?_⟩
  · rw [hbs]; exact h.size_pos
  · rw [hba, hbs]; exact paintCells_shape _ _ _ _ h.shape
  · rw [hms, hbs]; exact h.geom
  · rw [hms]; exact h.symOK
  · rw [hms]; exact h.disj
  · rw [hms, hba]
    intro t ht
    rw [symCount_congr b.boardArray _ t (hsame t ht)]
    exact h.count t ht
  · rw [hms, hba]
    intro t ht p hp
    rw [hsame t ht p hp]
    exact h.cellstate t ht p hp
  · rw [hms]; exact h.sunkOK

/-- Appending a fresh unhit ship whose cells are in-bounds water, and painting
its symbol there, preserves the invariant (`addShip`). -/
theorem inv_add_ship (b : BoardData) (h : Inv b) (ns : ActiveShip)
    (hlen : 1 ≤ ns.length)
    (hsym : 'A' ≤ ns.symbol ∧ ns.symbol ≤ 'Z')
    (hhc : ns.hitCount = 0) (hsk : ns.isSunk = false)
    (hcells : ∀ p ∈ shipCells ns, inB b.boardSize p ∧ gridGet b.boardArray p.1 p.2 = 'w')
    (b' : BoardData)
    (hba : b'.boardArray = paintCells b.boardArray (shipCells ns) ns.symbol)
    (hms : b'.myShips = b.myShips ++ [ns])
    (hbs : b'.boardSize = b.boardSize) :
    Inv b' := by
  have hnotold : ∀ t ∈ b.myShips, ∀ p ∈ shipCells ns, p ∉ shipCells t := by
    intro t ht p hp hpt
    rcases h.cellstate t ht p hpt with hc | hc | hc
    · have hwp := (hcells p hp).2
      rw [hwp] at hc
      have h2 := (h.symOK t ht).2
      rw [← hc] at h2
      exact absurd h2 (by decide)
    · have hwp := (hcells p hp).2
      rw [hwp] at hc
      exact absurd hc (by decide)
    · have hwp := (hcells p hp).2
      rw [hwp] at hc
      exact absurd hc (by decide)
  refine ⟨?_, ?_, ?_, ?_, ?_, ?_, ?_, ?_⟩
  · rw [hbs]; exact h.size_pos
  · rw [hba, hbs]; exact paintCells_shape _ _ _ _ h.shape
  · rw [hms, hbs]
    intro t ht
    rcases List.mem_append.mp ht with ht2 | ht2
    · exact h.geom t ht2
    · rw [List.mem_singleton.mp ht2]
      exact ⟨hlen, fun p hp => (hcells p hp).1⟩
  · rw [hms]
    intro t ht
    rcases List.mem_append.mp ht with ht2 | ht2
    · exact h.symOK t ht2
    · rw [List.mem_singleton.mp ht2]
      exact hsym
  · rw [hms, List.pairwise_append]
    refine ⟨h.disj, ?_, ?_⟩
    · exact List.Pairwise.cons (fun t ht => absurd ht (List.not_mem_nil t)) List.Pairwise.nil
    · intro u hu t ht
      rw [List.mem_singleton.mp ht]
      intro p hpu hpn
      exact hnotold u hu p hpn hpu
  · rw [hms, hba]
    intro t ht
    rcases List.mem_append.mp ht with ht2 | ht2
    · have hsame : ∀ p ∈ shipCells t,
          gridGet (paintCells b.boardArray (shipCells ns) ns.symbol) p.1 p.2 =
            gridGet b.boardArray p.1 p.2 := by
        intro p hp
        refine gridGet_paintCells_notmem _ _ _ _ _ ?_
        intro hmem
        exact hnotold t ht2 p hmem hp
      rw [symCount_congr b.boardArray _ t hsame]
      exact h.count t ht2
    · rw [List.mem_singleton.mp ht2]
      have hfull : symCount (paintCells b.boardArray (shipCells ns) ns.symbol) ns =
          (ns.length.toNat : Int) := by
        refine symCount_full _ _ ?_
        intro p hp
        exact gridGet_paintCells_mem _ _ _ _ p.1 p.2 h.shape hp (hcells p hp).1
      rw [hfull, hhc]
      omega
  · rw [hms, hba]
    intro t ht p hp
    rcases List.mem_append.mp ht with ht2 | ht2
    · have hg : gridGet (paintCells b.boardArray (shipCells ns) ns.symbol) p.1 p.2 =
          gridGet b.boardArray p.1 p.2 := by
        refine gridGet_paintCells_notmem _ _ _ _ _ ?_
        intro hmem
        exact hnotold t ht2 p hmem hp
      rw [hg]
      exact h.cellstate t ht2 p hp
    · have he := List.mem_singleton.mp ht2
      subst he
      left
      exact gridGet_paintCells_mem _ _ _ _ p.1 p.2 h.shape hp (hcells p hp).1
  · rw [hms]
    intro t ht
    rcases List.mem_append.mp ht with ht2 | ht2
    · exact h.sunkOK t ht2
    · have he := List.mem_singleton.mp ht2
      rw [he, hsk, hhc]
      have hz : ¬((0 : Int) = ns.length) := by omega
      rw [decide_eq_false hz]

/-- What `checkStartingPeg` guarantees cell by cell, vertical case. -/
theorem checkPegLoop_vert_spec (b : BoardData) (row col : Int) (fuel : Nat) :
    ∀ (j : Int) (k : Nat), checkPegLoop b true row col fuel j = 1 → k < fuel →
      row + j + k < b.boardSize ∧ gridGet b.boardArray (row + j + k) col = 'w' := by
  induction fuel with
  | zero =>
    intro j k _ hk
    exact absurd hk (by omega)
  | succ n ih =>
    intro j k hrun hk
    unfold checkPegLoop at hrun
    rw [if_pos rfl] at hrun
    by_cases h1 : b.boardSize ≤ row + j
    · rw [if_pos h1] at hrun
      exact absurd hrun (by decide)
    · rw [if_neg h1] at hrun
      by_cases h2 : gridGet b.boardArray (row + j) col ≠ 'w'
      · rw [if_pos h2] at hrun
        exact absurd hrun (by decide)
      · rw [if_neg h2] at hrun
        cases k with
        | zero =>
          have heq : row + j + ((0 : Nat) : Int) = row + j := by push_cast; ring
          rw [heq]
          exact ⟨by omega, not_not.mp h2⟩
        | succ m =>
          have hm := ih (j + 1) m hrun (by omega)
          have heq : row + (j + 1) + (m : Int) = row + j + ((m + 1 : Nat) : Int) := by
            push_cast; ring
          rw [heq] at hm
          exact hm

/-- What `checkStartingPeg` guarantees cell by cell, horizontal case. -/
theorem checkPegLoop_horiz_spec (b : BoardData) (row col : Int) (fuel : Nat) :
    ∀ (j : Int) (k : Nat), checkPegLoop b false row col fuel j = 1 → k < fuel →
      0 ≤ col - j - k ∧ gridGet b.boardArray row (col - j - k) = 'w' := by
  induction fuel with
  | zero =>
    intro j k _ hk
    exact absurd hk (by omega)
  | succ n ih =>
    intro j k hrun hk
    unfold checkPegLoop at hrun
    rw [if_neg (by decide)] at hrun
    by_cases h1 : col - j < 0
    · rw [if_pos h1] at hrun
      exact absurd hrun (by decide)
    · rw [if_neg h1] at hrun
      by_cases h2 : gridGet b.boardArray row (col - j) ≠ 'w'
      · rw [if_pos h2] at hrun
        exact absurd hrun (by decide)
      · rw [if_neg h2] at hrun
        cases k with
        | zero =>
          have heq : col - j - ((0 : Nat) : Int) = col - j := by push_cast; ring
          rw [heq]
          exact ⟨by omega, not_not.mp h2⟩
        | succ m =>
          have hm := ih (j + 1) m hrun (by omega)
          have heq : col - (j + 1) - (m : Int) = col - j - ((m + 1 : Nat) : Int) := by
            push_cast; ring
          rw [heq] at hm
          exact hm

/-- A validated `addShip` preserves the board invariant. -/
theorem addShip_inv (b : BoardData) (orientation startPeg len : Int) (symbol : Char)
    (h : Inv b)
    (hok : checkStartingPeg b orientation startPeg len = 1)
    (hpeg : 0 ≤ startPeg ∧ startPeg < b.boardSize * b.boardSize)
    (horient : orientation = 1 ∨ orientation = 2)
    (hlen : 1 ≤ len)
    (hsym : 'A' ≤ symbol ∧ symbol ≤ 'Z') :
    Inv (addShip b orientation startPeg len symbol) := by
  have hsize := h.size_pos
  have hrow0 : 0 ≤ startPeg / b.boardSize := Int.ediv_nonneg hpeg.1 (le_of_lt hsize)
  have hrowlt : startPeg / b.boardSize < b.boardSize :=
    (Int.ediv_lt_iff_lt_mul hsize).mpr hpeg.2
  have hcol0 : 0 ≤ startPeg % b.boardSize := Int.emod_nonneg _ (ne_of_gt hsize)
  have hcollt : startPeg % b.boardSize < b.boardSize := Int.emod_lt_of_pos _ hsize
  refine inv_add_ship b h
    { id := (b.myShips.length : Int), symbol := symbol, length := len, hitCount := 0, isSunk := false, startRow := startPeg / b.boardSize, startCol := startPeg % b.boardSize, orientation := orientation }
    hlen hsym rfl rfl ?_ _ rfl rfl rfl
  intro p hp
  rcases List.mem_map.mp hp with ⟨i, hi, hpe⟩
  rw [List.mem_range] at hi
  have hi2 : i < len.toNat := hi
  rcases horient with ho | ho
  · subst ho
    have hok2 : checkPegLoop b true (startPeg / b.boardSize) (startPeg % b.boardSize)
        len.toNat 0 = 1 := by
      unfold checkStartingPeg at hok
      simpa using hok
    have hspec := checkPegLoop_vert_spec b (startPeg / b.boardSize) (startPeg % b.boardSize)
      len.toNat 0 i hok2 hi2
    have hcellv : shipCell { id := (b.myShips.length : Int), symbol := symbol, length := len, hitCount := 0, isSunk := false, startRow := startPeg / b.boardSize, startCol := startPeg % b.boardSize, orientation := 1 } i = (startPeg / b.boardSize + (i : Int), startPeg % b.boardSize) := by
      simp [shipCell]
    rw [← hpe, hcellv]
    have heq : startPeg / b.boardSize + (0 : Int) + (i : Int) =
        startPeg / b.boardSize + (i : Int) := by ring
    rw [heq] at hspec
    refine ⟨⟨by omega, hspec.1, hcol0, hcollt⟩, hspec.2⟩
  · subst ho
    have hok2 : checkPegLoop b false (startPeg / b.boardSize) (startPeg % b.boardSize)
        len.toNat 0 = 1 := by
      unfold checkStartingPeg at hok
      simpa using hok
    have hspec := checkPegLoop_horiz_spec b (startPeg / b.boardSize) (startPeg % b.boardSize)
      len.toNat 0 i hok2 hi2
    have hcellh : shipCell { id := (b.myShips.length : Int), symbol := symbol, length := len, hitCount := 0, isSunk := false, startRow := startPeg / b.boardSize, startCol := startPeg % b.boardSize, orientation := 2 } i = (startPeg / b.boardSize, startPeg % b.boardSize - (i : Int)) := by
      simp [shipCell]
    rw [← hpe, hcellh]
    have heq : startPeg % b.boardSize - (0 : Int) - (i : Int) =
        startPeg % b.boardSize - (i : Int) := by ring
    rw [heq] at hspec
    refine ⟨⟨hrow0, hrowlt, hspec.1, by omega⟩, hspec.2⟩

/-- A `placeShip` call that does not hit undefined behaviour preserves the
board invariant, whether it succeeds or fails. -/
theorem placeShipOp_inv (b : BoardData) (gx gy orientation len : Int) (sym : Char)
    (ok : Bool) (b' : BoardData) (h : Inv b)
    (hv : placeShipOp b gx gy orientation len sym = some (ok, b')) :
    Inv b' := by
  unfold placeShipOp at hv
  cases hval : isValidShipPlacement b gx gy orientation len with
  | none =>
    rw [hval] at hv
    exact absurd hv (by simp)
  | some bv =>
    rw [hval] at hv
    cases bv with
    | false =>
      simp only [] at hv
      injection hv with hv2
      rw [Prod.mk.injEq] at hv2
      rw [← hv2.2]
      exact h
    | true =>
      simp only [] at hv
      injection hv with hv2
      rw [Prod.mk.injEq] at hv2
      rw [← hv2.2]
      have hgood := (isValidShipPlacement_some_true_iff b gx gy orientation len h.shape).mp hval
      refine inv_paint_water b h (placeCells gx gy orientation len) sym ?_ _ rfl rfl rfl
      intro p hp
      exact (hgood p hp).2

theorem initBoard_inv (size : Int) (hpos : 0 < size) : Inv (initBoard size) := by
  refine ⟨hpos, gridShape_initBoard size, ?_, ?_, ?_, ?_, ?_, ?_⟩
  · intro s hs
    exact absurd hs (by simp [initBoard])
  · intro s hs
    exact absurd hs (by simp [initBoard])
  · show List.Pairwise _ ([] : List ActiveShip)
    exact List.Pairwise.nil
  · intro s hs
    exact absurd hs (by simp [initBoard])
  · intro s hs
    exact absurd hs (by simp [initBoard])
  · intro s hs
    exact absurd hs (by simp [initBoard])

/-- Every reachable board satisfies the invariant. -/
theorem reach_inv (b : BoardData) (h : Reach b) : Inv b := by
  induction h with
  | init size hpos => exact initBoard_inv size hpos
  | add b orientation startPeg pieceLength symbol hr hok hpeg horient hlen hsym ih =>
    exact addShip_inv b orientation startPeg pieceLength symbol ih hok hpeg horient hlen hsym
  | place b gridX gridY orientation length symbol ok b' hr hv ih =>
    exact placeShipOp_inv b gridX gridY orientation length symbol ok b' ih hv
  | shot b x y hr ih => exact receiveShot_inv b x y ih

/-- `receiveShot` never decreases any registered ship's hit count. -/
theorem receiveShot_hitCount_mono (b : BoardData) (x y : Int) :
    List.Forall₂ (fun s t => s.hitCount ≤ t.hitCount)
      b.myShips (receiveShot b x y).2.myShips := by
  have hrefl : ∀ (l : List ActiveShip),
      List.Forall₂ (fun (s : ActiveShip) (t : ActiveShip) => s.hitCount ≤ t.hitCount) l l := by
    intro l
    exact List.forall₂_same.mpr (fun s _ => le_refl _)
  unfold receiveShot
  by_cases hb : 0 ≤ x ∧ x < b.boardSize ∧ 0 ≤ y ∧ y < b.boardSize
  · rw [if_neg (not_not_intro hb)]
    dsimp only
    by_cases hres : gridGet b.boardArray y x = 'x' ∨ gridGet b.boardArray y x = 'o' ∨
        gridGet b.boardArray y x = 's'
    · rw [if_pos hres]
      exact hrefl _
    · rw [if_neg hres]
      by_cases hw : gridGet b.boardArray y x = 'w'
      · rw [if_pos hw]
        exact hrefl _
      · rw [if_neg hw]
        by_cases hup : 'A' ≤ gridGet b.boardArray y x ∧ gridGet b.boardArray y x ≤ 'Z'
        · rw [if_pos hup]
          cases hscan : scanShips (gridGet b.boardArray y x) x y b.myShips with
          | none =>
            exact hrefl _
          | some trip =>
            obtain ⟨pre, s, post⟩ := trip
            obtain ⟨hdecomp, _, _⟩ := scanShips_some_spec _ _ _ _ _ _ _ hscan
            dsimp only
            split
            · show List.Forall₂ (fun u v => u.hitCount ≤ v.hitCount) b.myShips
                (pre ++ ({ s with hitCount := s.hitCount + 1, isSunk := true } : ActiveShip) :: post)
              rw [hdecomp]
              refine List.rel_append (hrefl pre) ?_
              refine List.Forall₂.cons ?_ (hrefl post)
              show s.hitCount ≤ s.hitCount + 1
              omega
            · show List.Forall₂ (fun u v => u.hitCount ≤ v.hitCount) b.myShips
                (pre ++ ({ s with hitCount := s.hitCount + 1 } : ActiveShip) :: post)
              rw [hdecomp]
              refine List.rel_append (hrefl pre) ?_
              refine List.Forall₂.cons ?_ (hrefl post)
              show s.hitCount ≤ s.hitCount + 1
              omega
        · rw [if_neg hup]
          exact hrefl _
  · rw [if_pos hb]
    exact hrefl _

/-- C3: on every board reachable from an empty board through validated
placements and any sequence of shots, each registered ship satisfies
`0 ≤ hitCount ≤ length` and `isSunk ↔ hitCount = length`; and `receiveShot`
never decreases any ship's hit count (ship by ship, in order). -/
theorem hitcount_invariant (b : BoardData) (hr : Reach b) (x y : Int) :
    (∀ s ∈ b.myShips, 0 ≤ s.hitCount ∧ s.hitCount ≤ s.length ∧
      (s.isSunk = true ↔ s.hitCount = s.length)) ∧
    List.Forall₂ (fun s t => s.hitCount ≤ t.hitCount)
      b.myShips (receiveShot b x y).2.myShips := by
  have hinv := reach_inv b hr
  constructor
  · intro s hs
    have hcnt := hinv.count s hs
    have hlow := symCount_nonneg b.boardArray s
    have hle := symCount_le_length b.boardArray s
    have hlen1 := (hinv.geom s hs).1
    refine ⟨by omega, by omega, ?_⟩
    rw [hinv.sunkOK s hs]
    simp
  · exact receiveShot_hitCount_mono b x y

/-- Witness for C3: the vertical 3-ship board of Scenario A, with a shot at
`(5, 5)`. -/
theorem hitcount_invariant_witness :
    (∀ s ∈ (addShip (initBoard 10) 1 55 3 'A').myShips,
      0 ≤ s.hitCount ∧ s.hitCount ≤ s.length ∧
        (s.isSunk = true ↔ s.hitCount = s.length)) ∧
    List.Forall₂ (fun s t => s.hitCount ≤ t.hitCount)
      (addShip (initBoard 10) 1 55 3 'A').myShips
      (receiveShot (addShip (initBoard 10) 1 55 3 'A') 5 5).2.myShips :=
  hitcount_invariant (addShip (initBoard 10) 1 55 3 'A')
    (Reach.add (initBoard 10) 1 55 3 'A' (Reach.init 10 (by decide)) (by decide)
      (by decide) (Or.inl rfl) (by decide) (by decide)) 5 5

/-- C9: on every reachable board the registered ships' occupied cell sets are
pairwise disjoint — no grid cell ever lies on two ships — and since shots and
paints preserve reachability, the property holds after every subsequent
operation. -/
theorem ships_never_intersect (b : BoardData) (hr : Reach b) :
    b.myShips.Pairwise (fun s t => ∀ p ∈ shipCells s, p ∉ shipCells t) :=
  (reach_inv b hr).disj

/-- Witness for C9: a vertical 3-ship at peg 55 and a horizontal 2-ship at
peg 11 on a 10×10 board. -/
theorem ships_never_intersect_witness :
    (addShip (addShip (initBoard 10) 1 55 3 'A') 2 11 2 'B').myShips.Pairwise
      (fun s t => ∀ p ∈ shipCells s, p ∉ shipCells t) :=
  ships_never_intersect _
    (Reach.add (addShip (initBoard 10) 1 55 3 'A') 2 11 2 'B'
      (Reach.add (initBoard 10) 1 55 3 'A' (Reach.init 10 (by decide)) (by decide)
        (by decide) (Or.inl rfl) (by decide) (by decide))
      (by decide) (by decide) (Or.inr rfl) (by decide) (by decide))

end Battleship
